import Mathlib

/-!
Shallow embedding of the event-processing core of the Qinfinity portal:
the publish/subscribe `EventBus` (src/lib/events/event-bus.ts), the
priority retry queue `EventQueue` (src/lib/events/queue.ts) and the
`WebhookHandler` dispatcher.

Modelling conventions:
* Machine timestamps (ISO strings produced from `Date.now()`) are modelled
  as natural numbers; string comparison of ISO timestamps corresponds to
  numeric comparison.
* The cooperative async runtime is collapsed at quiescent points: one call
  of `processMessage` (dispatch, publish-vs-timeout race, and the `finally`
  release of the in-flight slot) is one atomic state transition whose
  outcome (the race resolving to success, or to a thrown error / timeout)
  is a Boolean parameter.
* `generateId` is modelled by a fresh-id counter, reflecting that generated
  ids are unique.
* Handler closures are opaque: a handler is modelled by its settlement
  outcome on each event (resolves or rejects), plus the one bus effect a
  handler produced by `once` performs (unsubscribing its own id).
-/

namespace Qinfinity

/-- `EventType` is a closed string enumeration in the source; the core only
compares these strings for equality, so we model the type as `String`. -/
abbrev EventType := String

/-- An `Event` record (src/types/events).  The open `payload` / `metadata`
maps are never inspected by the core, so they are collapsed into one opaque
`Nat` token. -/
structure Event where
  id : Nat
  type : EventType
  timestamp : Nat
  source : String
  payload : Nat
deriving DecidableEq, Repr

/-- Status of a queue message (`QueueMessage.status`). -/
inductive MsgStatus where
  | pending
  | processing
  | completed
  | failed
  | dead_letter
deriving DecidableEq, Repr

/-- A `QueueMessage` as built by `EventQueue.enqueue`. -/
structure QueueMessage where
  id : Nat
  event : Event
  priority : Int
  retryCount : Nat
  maxRetries : Nat
  scheduledAt : Option Nat
  processedAt : Option Nat
  status : MsgStatus
deriving DecidableEq, Repr

/-- Resolved `QueueOptions` (all four fields filled in). -/
structure QueueOptions where
  maxConcurrent : Nat
  retryDelay : Nat
  maxRetries : Nat
  processingTimeout : Nat
deriving DecidableEq, Repr

/-- JavaScript `a || d` defaulting on an optional numeric option: the
default applies when the field is absent or `0` (falsy). -/
def orDefault (v : Option Nat) (d : Nat) : Nat :=
  match v with
  | some n => if n = 0 then d else n
  | none => d

/-- The `EventQueue` constructor: fills each option with its default
(`maxConcurrent` 5, `retryDelay` 1000, `maxRetries` 3,
`processingTimeout` 30000) via `||`. -/
def resolveOptions (maxConcurrent retryDelay maxRetries processingTimeout : Option Nat) :
    QueueOptions :=
  { maxConcurrent := orDefault maxConcurrent 5
    retryDelay := orDefault retryDelay 1000
    maxRetries := orDefault maxRetries 3
    processingTimeout := orDefault processingTimeout 30000 }

/-- State of an `EventQueue` instance.  `processing` is the in-flight id
set, `nextId` models `generateId` freshness. -/
structure EventQueue where
  queue : List QueueMessage
  processing : List Nat
  deadLetter : List QueueMessage
  completedCount : Nat
  failedCount : Nat
  options : QueueOptions
  nextId : Nat
deriving DecidableEq, Repr

/-- A freshly constructed queue (`new EventQueue(options)`). -/
def initQueue (opts : QueueOptions) : EventQueue :=
  { queue := []
    processing := []
    deadLetter := []
    completedCount := 0
    failedCount := 0
    options := opts
    nextId := 0 }

/-- The insertion step of `enqueue`:
`findIndex((m) => m.priority < message.priority)` followed by `splice`
(insert before the first message with strictly lower priority), falling
back to `push` when no such message exists. -/
def insertByPriority (q : List QueueMessage) (message : QueueMessage) : List QueueMessage :=
  match q.findIdx? (fun m => m.priority < message.priority) with
  | none => q ++ [message]
  | some i => q.take i ++ message :: q.drop i

/-- `enqueue(event, priority, scheduledAt?)`: build the message, insert it
by priority, return the new state together with the constructed message
(the source returns its id). -/
def enqueueMsg (s : EventQueue) (e : Event) (priority : Int) (scheduledAt : Option Nat) :
    EventQueue × QueueMessage :=
  let message : QueueMessage :=
    { id := s.nextId
      event := e
      priority := priority
      retryCount := 0
      maxRetries := s.options.maxRetries
      scheduledAt := scheduledAt
      processedAt := none
      status := .pending }
  ({ s with queue := insertByPriority s.queue message, nextId := s.nextId + 1 }, message)

/-- `schedule(event, delayMs, priority)` = `enqueue` with
`scheduledAt = now + delayMs`. -/
def scheduleMsg (s : EventQueue) (e : Event) (delayMs : Nat) (priority : Int) (now : Nat) :
    EventQueue × QueueMessage :=
  enqueueMsg s e priority (some (now + delayMs))

/-- `removeFromQueue(messageId)`: `findIndex` + `splice(index, 1)`, i.e.
erase the first message with that id. -/
def removeFromQueue (q : List QueueMessage) (mid : Nat) : List QueueMessage :=
  q.eraseP (fun m => m.id = mid)

/-- Replace (in place) every queue entry with the given id; with unique
ids this is the mutation of the single message object shared between the
caller of `processMessage` and the `queue` array. -/
def setMsg (q : List QueueMessage) (mid : Nat) (m : QueueMessage) : List QueueMessage :=
  q.map (fun x => if x.id = mid then m else x)

/-- One complete `processMessage(message)` attempt, taken atomically
(in-flight add and `finally` delete cancel out).  `ok` is the outcome of
racing `eventBus.publish(message.event)` against the processing timeout:
`true` means the publish resolved first, `false` a thrown error or the
timeout.  Returns the new state and the message object as left after the
call (it is removed from `queue` on the completed and dead-letter paths
but still exists for the caller). -/
def processAttempt (s : EventQueue) (mid : Nat) (ok : Bool) (now : Nat) :
    EventQueue × Option QueueMessage :=
  match s.queue.find? (fun m => m.id = mid) with
  | none => (s, none)
  | some m0 =>
    let m1 := { m0 with status := MsgStatus.processing }
    if ok then
      let m2 := { m1 with status := MsgStatus.completed, processedAt := some now }
      ({ s with
          queue := removeFromQueue s.queue mid
          completedCount := s.completedCount + 1 }, some m2)
    else
      let m2 := { m1 with retryCount := m1.retryCount + 1 }
      if m2.maxRetries ≤ m2.retryCount then
        let m3 := { m2 with status := MsgStatus.dead_letter }
        ({ s with
            queue := removeFromQueue s.queue mid
            deadLetter := s.deadLetter ++ [m3]
            failedCount := s.failedCount + 1 }, some m3)
      else
        let m3 := { m2 with
          status := MsgStatus.pending
          scheduledAt := some (now + s.options.retryDelay * 2 ^ m2.retryCount) }
        ({ s with queue := setMsg s.queue mid m3 }, some m3)

/-- `retryDeadLetter(messageId)`: splice the message out of the dead-letter
list, set status pending and retryCount 0, and `push` it onto the END of
the pending queue.  Returns `false` when the id is not found. -/
def retryDeadLetter (s : EventQueue) (mid : Nat) : EventQueue × Bool :=
  match s.deadLetter.find? (fun m => m.id = mid) with
  | none => (s, false)
  | some m =>
    let m1 := { m with status := MsgStatus.pending, retryCount := 0 }
    ({ s with
        deadLetter := s.deadLetter.eraseP (fun x => x.id = mid)
        queue := s.queue ++ [m1] }, true)

/-- `clearDeadLetter()`. -/
def clearDeadLetter (s : EventQueue) : EventQueue :=
  { s with deadLetter := [] }

/-- `clear()`: drops the pending list and the in-flight set only. -/
def clearQueue (s : EventQueue) : EventQueue :=
  { s with queue := [], processing := [] }

/-- `QueueStats` as returned by `getStats()`. -/
structure QueueStats where
  pending : Nat
  processing : Nat
  completed : Nat
  failed : Nat
  deadLetter : Nat
deriving DecidableEq, Repr

/-- `getStats()`. -/
def getStats (s : EventQueue) : QueueStats :=
  { pending := (s.queue.filter (fun m => m.status = MsgStatus.pending)).length
    processing := s.processing.length
    completed := s.completedCount
    failed := s.failedCount
    deadLetter := s.deadLetter.length }

/-- `getPendingMessages()`. -/
def getPendingMessages (s : EventQueue) : List QueueMessage :=
  s.queue.filter (fun m => m.status = MsgStatus.pending)

/-- One externally observable queue operation.  `attempt` is a complete
`processMessage` call on the message with the given id (no-op when the id
is not in the queue, mirroring that the loop only dispatches queued
messages). -/
inductive QOp where
  | enqueue (e : Event) (priority : Int) (scheduledAt : Option Nat)
  | attempt (mid : Nat) (ok : Bool) (now : Nat)
  | retryDead (mid : Nat)
  | clearDead
  | clearAll
deriving DecidableEq, Repr

/-- Apply one operation to the queue state. -/
def applyOp (s : EventQueue) (op : QOp) : EventQueue :=
  match op with
  | .enqueue e p sch => (enqueueMsg s e p sch).1
  | .attempt mid ok now => (processAttempt s mid ok now).1
  | .retryDead mid => (retryDeadLetter s mid).1
  | .clearDead => clearDeadLetter s
  | .clearAll => clearQueue s

/-- Run a sequence of operations. -/
def runOps (s : EventQueue) (ops : List QOp) : EventQueue :=
  ops.foldl applyOp s

/-- Number of `enqueue` operations in a trace (messages ever enqueued;
`schedule` is an `enqueue` with a `scheduledAt`). -/
def countEnqueues (ops : List QOp) : Nat :=
  (ops.filter (fun op => match op with | .enqueue _ _ _ => true | _ => false)).length

/-! ### Derived notions about the queue used by the verification -/

/-- The pending list is in priority-descending order. -/
def prioritySorted (q : List QueueMessage) : Prop :=
  q.Pairwise (fun a b => b.priority ≤ a.priority)

/-- The queue owns a message object: it occurs exactly once in the pending
list and no other entry carries its id (generated ids are unique).  Stated
positionally so that the `findIndex`/`splice`-based operations of the
source can be computed on it. -/
def tracks (s : EventQueue) (msg : QueueMessage) : Prop :=
  ∃ l₁ l₂, s.queue = l₁ ++ msg :: l₂ ∧ ∀ x ∈ l₁ ++ l₂, x.id ≠ msg.id

/-- The message object after a failed attempt that leaves retries:
status back to pending, incremented retry count, exponential-backoff
`scheduledAt` computed from the already-incremented count. -/
def retryMsg (m : QueueMessage) (retryDelay now : Nat) : QueueMessage :=
  { m with
    status := MsgStatus.pending
    retryCount := m.retryCount + 1
    scheduledAt := some (now + retryDelay * 2 ^ (m.retryCount + 1)) }

/-- The message object after the failed attempt that exhausts retries. -/
def deadMsg (m : QueueMessage) : QueueMessage :=
  { m with status := MsgStatus.dead_letter, retryCount := m.retryCount + 1 }

/-- The message object after a successful attempt. -/
def doneMsg (m : QueueMessage) (now : Nat) : QueueMessage :=
  { m with status := MsgStatus.completed, processedAt := some now }

/-- A sequence of failed attempts on one message id, at the given times. -/
def failAttempts (s : EventQueue) (mid : Nat) (nows : List Nat) : EventQueue :=
  nows.foldl (fun st now => (processAttempt st mid false now).1) s

/-- Test scenario for C3: enqueue one message into `s0`, fail it at each
time in `nows`, then fail it once more at `nlast`. -/
def exhaustRun (s0 : EventQueue) (e : Event) (p : Int) (sch : Option Nat)
    (nows : List Nat) (nlast : Nat) : EventQueue × Option QueueMessage :=
  processAttempt (failAttempts (enqueueMsg s0 e p sch).1 (enqueueMsg s0 e p sch).2.id nows)
    (enqueueMsg s0 e p sch).2.id false nlast

/-- Test scenario for C4: enqueue one message into `s0`, fail it twice,
then let the third attempt succeed. -/
def failTwiceThenSucceed (s0 : EventQueue) (e : Event) (p : Int) (sch : Option Nat)
    (n1 n2 n3 : Nat) : EventQueue × Option QueueMessage :=
  processAttempt
    (failAttempts (enqueueMsg s0 e p sch).1 (enqueueMsg s0 e p sch).2.id [n1, n2])
    (enqueueMsg s0 e p sch).2.id true n3

/-- The number of messages one operation enqueues (1 for `enqueue`,
0 otherwise). -/
def enqOpCount (op : QOp) : Nat :=
  match op with
  | .enqueue _ _ _ => 1
  | _ => 0

/-- Operations other than `retryDeadLetter` and `clear()`. -/
def conservativeOp (op : QOp) : Bool :=
  match op with
  | .retryDead _ => false
  | .clearAll => false
  | _ => true

/-- Per-message status / retry-count invariant of the queue: pending-list
messages have retries left, dead-letter messages exhausted their budget
exactly. -/
def Inv (s : EventQueue) : Prop :=
  (∀ m ∈ s.queue, m.status = MsgStatus.pending ∧ m.retryCount < m.maxRetries ∧
    1 ≤ m.maxRetries) ∧
  (∀ m ∈ s.deadLetter, m.status = MsgStatus.dead_letter ∧ m.retryCount = m.maxRetries ∧
    1 ≤ m.maxRetries) ∧
  1 ≤ s.options.maxRetries

/-- Ids of all messages owned by the queue (pending and dead-letter). -/
def idsOf (s : EventQueue) : List Nat :=
  (s.queue ++ s.deadLetter).map (fun m => m.id)

/-- Id well-formedness: owned ids are pairwise distinct and below the
fresh-id counter. -/
def IdWF (s : EventQueue) : Prop :=
  (idsOf s).Nodup ∧ ∀ i ∈ idsOf s, i < s.nextId

/-! ### Concrete sample inputs used by counterexamples and witnesses -/

/-- A sample event. -/
def sampleEvent : Event :=
  { id := 100, type := "ticket.created", timestamp := 0, source := "system", payload := 0 }

/-- A second sample event. -/
def sampleEvent2 : Event :=
  { id := 101, type := "ticket.closed", timestamp := 1, source := "system", payload := 0 }

/-- Default queue options (`new EventQueue()`), i.e. maxRetries 3. -/
def defaultOptions : QueueOptions :=
  resolveOptions none none none none

/-- Trace refuting the literal C1 ordering claim: a priority-5 message is
enqueued, fails its three attempts into the dead-letter list, a priority-0
message is enqueued, and the dead-letter message is retried —
`retryDeadLetter` pushes it to the END of the pending list, behind the
priority-0 message. -/
def opsC1 : List QOp :=
  [QOp.enqueue sampleEvent 5 none,
   QOp.attempt 0 false 10,
   QOp.attempt 0 false 20,
   QOp.attempt 0 false 30,
   QOp.enqueue sampleEvent2 0 none,
   QOp.retryDead 0]

/-- Trace refuting the literal C5 conservation claim: one message is
enqueued, dead-letters after three failed attempts (failed counter 1),
then `retryDeadLetter` moves it back to pending — it is now counted both
as pending and in the failed counter. -/
def opsC5 : List QOp :=
  [QOp.enqueue sampleEvent 0 none,
   QOp.attempt 0 false 10,
   QOp.attempt 0 false 20,
   QOp.attempt 0 false 30,
   QOp.retryDead 0]

/-! ### EventBus (src/lib/events/event-bus.ts) -/

/-- A subscription's `eventType`: a single type or an array of types. -/
inductive SubEventType where
  | single (t : EventType)
  | multi (ts : List EventType)

/-- `matchesEventType(eventType, subscriptionType)`. -/
def matchesEventType (eventType : EventType) (subscriptionType : SubEventType) : Bool :=
  match subscriptionType with
  | .multi ts => ts.contains eventType
  | .single t => eventType == t

/-- An `EventSubscription`.  The handler closure is opaque to the bus; we
model it by (a) `outcome e`: whether the handler settles successfully
(`true`) or rejects (`false`) on event `e`, and (b) `once`: whether the
handler is the wrapper installed by `EventBus.once`, whose one bus effect
is `unsubscribe(id)` executed before the user handler body. -/
structure Subscription where
  id : Nat
  eventType : SubEventType
  filter : Option (Event → Bool)
  once : Bool
  outcome : Event → Bool

/-- `passesFilter(event, filter?)`. -/
def passesFilter (e : Event) (filter : Option (Event → Bool)) : Bool :=
  match filter with
  | none => true
  | some f => f e

/-- Bus state: the subscription map (a JS `Map`, iterated in insertion
order, keyed by unique ids) and the bounded history. -/
structure EventBus where
  subscriptions : List Subscription
  eventHistory : List Event
  maxHistorySize : Nat

/-- The subscriptions matched by `publish(event)`:
`matchesEventType(event.type, sub.eventType) && passesFilter(event, sub.filter)`. -/
def matchedSubs (bus : EventBus) (e : Event) : List Subscription :=
  bus.subscriptions.filter
    (fun sub => matchesEventType e.type sub.eventType && passesFilter e sub.filter)

/-- Running one matched handler during `publish`: a `once` wrapper first
unsubscribes its own id (synchronously, before the user handler body),
then the handler settles; the settlement `(subscription id, resolved?)` is
appended to the record of the fan-out. -/
def publishStep (e : Event) (acc : List Subscription × List (Nat × Bool))
    (sub : Subscription) : List Subscription × List (Nat × Bool) :=
  let subsAfter := if sub.once then acc.1.filter (fun x => x.id ≠ sub.id) else acc.1
  (subsAfter, acc.2 ++ [(sub.id, sub.outcome e)])

/-- `publish(event)`: push the event into the bounded history, evict the
oldest entry if over capacity, snapshot the matching subscriptions, then
run every matched handler with its failure caught.  Each async handler
body starts synchronously in subscription order.  `Promise.all` is
awaited, so `publish` resolves with the settlement of every matched
handler: the returned list holds one `(subscription id, resolved?)` pair
per matched handler, in order.  `publish` itself never rejects. -/
def publish (bus : EventBus) (e : Event) : EventBus × List (Nat × Bool) :=
  let hist0 := bus.eventHistory ++ [e]
  let hist := if bus.maxHistorySize < hist0.length then hist0.drop 1 else hist0
  let matched := matchedSubs bus e
  let r := matched.foldl (publishStep e) (bus.subscriptions, [])
  ({ bus with subscriptions := r.1, eventHistory := hist }, r.2)

/-- `getHistory(filter?)`: restrict to one event type when given, then
`slice(-limit)` — but only when `limit` is truthy (present and non-zero). -/
def getHistory (hist : List Event) (eventType : Option EventType) (limit : Option Nat) :
    List Event :=
  let events :=
    match eventType with
    | some t => hist.filter (fun e => e.type == t)
    | none => hist
  match limit with
  | some n => if n ≠ 0 then events.drop (events.length - n) else events
  | none => events

/-! ### WebhookHandler (the webhook dispatcher source file) -/

/-- A `WebhookConfig`. -/
structure WebhookConfig where
  id : String
  url : String
  events : List EventType
  active : Bool
  retryCount : Nat
  timeout : Nat
deriving DecidableEq, Repr

/-- A `WebhookDeliveryResult` history entry. -/
structure WebhookDeliveryResult where
  webhookId : String
  success : Bool
  statusCode : Option Nat
  error : Option String
  retryCount : Nat
  deliveredAt : Nat
deriving DecidableEq, Repr

/-- Outcome of one call of the delivery transport
(`simulateDelivery` / an outbound HTTP request): it resolves with a
success Boolean or it throws. -/
inductive DeliveryOutcome where
  | ok (success : Bool)
  | thrown (msg : String)
deriving DecidableEq, Repr

/-- `attemptDelivery(webhook, event, retryCount)`: call the transport,
record a `WebhookDeliveryResult` for the attempt regardless of outcome,
and on failure retry (after a backoff delay, irrelevant to the recorded
data) while `retryCount < webhook.retryCount`.  The transport is a
function of the attempt number; `now` stamps `deliveredAt` (the recorded
timestamps play no role in the claims).  Returns the final result and the
list of results recorded by `recordDelivery`, in order. -/
def attemptDelivery (webhook : WebhookConfig) (transport : Nat → DeliveryOutcome)
    (now : Nat) (retryCount : Nat) :
    WebhookDeliveryResult × List WebhookDeliveryResult :=
  match transport retryCount with
  | .ok success =>
    let result : WebhookDeliveryResult :=
      { webhookId := webhook.id
        success := success
        statusCode := some (if success then 200 else 500)
        error := none
        retryCount := retryCount
        deliveredAt := now }
    if h : success = false ∧ retryCount < webhook.retryCount then
      let rest := attemptDelivery webhook transport now (retryCount + 1)
      (rest.1, result :: rest.2)
    else
      (result, [result])
  | .thrown msg =>
    let result : WebhookDeliveryResult :=
      { webhookId := webhook.id
        success := false
        statusCode := none
        error := some msg
        retryCount := retryCount
        deliveredAt := now }
    if h : retryCount < webhook.retryCount then
      let rest := attemptDelivery webhook transport now (retryCount + 1)
      (rest.1, result :: rest.2)
    else
      (result, [result])
termination_by webhook.retryCount + 1 - retryCount

/-- `deliverToMatchingWebhooks(event)`: filter the registry to webhooks
that are `active` and whose `events` list includes the event's type, then
attempt delivery to each.  The transport is per-webhook
(`transport w n` = outcome of attempt `n` against webhook `w`); only the
webhooks actually delivered to ever have their transport consulted.
Returns, per delivered-to webhook, the final result and the recorded
results. -/
def deliverToMatchingWebhooks (webhooks : List WebhookConfig) (e : Event)
    (transport : WebhookConfig → Nat → DeliveryOutcome) (now : Nat) :
    List (WebhookDeliveryResult × List WebhookDeliveryResult) :=
  let matching := webhooks.filter (fun w => w.active && w.events.contains e.type)
  matching.map (fun w => attemptDelivery w (transport w) now 0)

/-- All delivery results recorded during one `deliverToMatchingWebhooks`. -/
def recordedResults (webhooks : List WebhookConfig) (e : Event)
    (transport : WebhookConfig → Nat → DeliveryOutcome) (now : Nat) :
    List WebhookDeliveryResult :=
  (deliverToMatchingWebhooks webhooks e transport now).flatMap (fun r => r.2)

/-- `deliverToWebhook(webhookId, event)`: look the webhook up (first match
on id in the registry), return a synthetic failed result when it is
missing or inactive, otherwise `attemptDelivery(webhook, event, 0)`.  The
Boolean reports whether the transport was invoked at all. -/
def deliverToWebhook (webhooks : List WebhookConfig) (webhookId : String) (e : Event)
    (transport : Nat → DeliveryOutcome) (now : Nat) :
    WebhookDeliveryResult × Bool :=
  match webhooks.find? (fun w => w.id == webhookId) with
  | none =>
    ({ webhookId := webhookId
       success := false
       statusCode := none
       error := some "Webhook not found"
       retryCount := 0
       deliveredAt := now }, false)
  | some webhook =>
    if webhook.active then
      ((attemptDelivery webhook transport now 0).1, true)
    else
      ({ webhookId := webhookId
         success := false
         statusCode := none
         error := some "Webhook is inactive"
         retryCount := 0
         deliveredAt := now }, false)

/-- `getDeliveryHistory(filter?)`: restrict to one webhook id when given,
then `slice(-limit)` only when `limit` is truthy. -/
def getDeliveryHistory (history : List WebhookDeliveryResult)
    (webhookId : Option String) (limit : Option Nat) : List WebhookDeliveryResult :=
  let hist :=
    match webhookId with
    | some wid => history.filter (fun h => h.webhookId == wid)
    | none => history
  match limit with
  | some n => if n ≠ 0 then hist.drop (hist.length - n) else hist
  | none => hist

/-- A transport outcome counted as a failed attempt by `attemptDelivery`
(it resolved `false`, or it threw). -/
def isFailure (o : DeliveryOutcome) : Bool :=
  match o with
  | .ok success => !success
  | .thrown _ => true

/-- The `WebhookDeliveryResult` recorded when the transport resolves. -/
def okResult (w : WebhookConfig) (success : Bool) (rc now : Nat) : WebhookDeliveryResult :=
  { webhookId := w.id
    success := success
    statusCode := some (if success then 200 else 500)
    error := none
    retryCount := rc
    deliveredAt := now }

/-- The `WebhookDeliveryResult` recorded when the transport throws. -/
def errResult (w : WebhookConfig) (msg : String) (rc now : Nat) : WebhookDeliveryResult :=
  { webhookId := w.id
    success := false
    statusCode := none
    error := some msg
    retryCount := rc
    deliveredAt := now }

/-- A sample webhook used by witnesses, `retryCount` 3. -/
def sampleWebhook : WebhookConfig :=
  { id := "wh-1"
    url := "https://example.test/hook"
    events := ["ticket.created"]
    active := true
    retryCount := 3
    timeout := 5000 }

/-- A sample `once` subscription used by the C7 witness. -/
def sampleOnceSub : Subscription :=
  { id := 7
    eventType := SubEventType.single "ticket.created"
    filter := none
    once := true
    outcome := fun _ => true }

/-- A sample plain subscription whose handler always rejects, used by the
C2 witness. -/
def sampleFailSub : Subscription :=
  { id := 8
    eventType := SubEventType.single "ticket.created"
    filter := none
    once := false
    outcome := fun _ => false }

/-- A sample bus holding the two sample subscriptions. -/
def sampleBus : EventBus :=
  { subscriptions := [sampleOnceSub, sampleFailSub]
    eventHistory := []
    maxHistorySize := 1000 }

instance (q : List QueueMessage) : Decidable (prioritySorted q) := by
  unfold prioritySorted; infer_instance

instance (s : EventQueue) : Decidable (Inv s) := by
  unfold Inv; infer_instance

instance (s : EventQueue) : Decidable (IdWF s) := by
  unfold IdWF; infer_instance

/-! ## Theorems -/

/-- The tail slice of a list has length `min n (length)` . -/
theorem drop_sub_length_eq_min {α : Type} (l : List α) (n : Nat) :
    (l.drop (l.length - n)).length = min n l.length := by
  rw [List.length_drop]
  omega

/-- C10 — `EventBus.getHistory` and `WebhookDispatcher.getDeliveryHistory`
apply their tail limit only when the supplied limit is truthy: limit 0
behaves like an absent limit and returns the whole filtered history, and a
limit `n > 0` returns the last `min n (length)` filtered entries in
chronological order (a tail slice of the filtered history). -/
theorem history_limit_zero_c10 :
    (∀ (hist : List Event) (t : Option EventType),
      getHistory hist t (some 0) = getHistory hist t none) ∧
    (∀ (hist : List Event) (t : Option EventType) (n : Nat), 0 < n →
      getHistory hist t (some n)
        = (getHistory hist t none).drop ((getHistory hist t none).length - n) ∧
      (getHistory hist t (some n)).length = min n (getHistory hist t none).length) ∧
    (∀ (history : List WebhookDeliveryResult) (w : Option String),
      getDeliveryHistory history w (some 0) = getDeliveryHistory history w none) ∧
    (∀ (history : List WebhookDeliveryResult) (w : Option String) (n : Nat), 0 < n →
      getDeliveryHistory history w (some n)
        = (getDeliveryHistory history w none).drop
            ((getDeliveryHistory history w none).length - n) ∧
      (getDeliveryHistory history w (some n)).length
        = min n (getDeliveryHistory history w none).length) := by
  refine ⟨fun hist t => ?_, fun hist t n hn => ?_, fun history w => ?_, fun history w n hn => ?_⟩
  · simp [getHistory]
  · constructor
    · simp only [getHistory]
      rw [if_pos (by omega)]
    · simp only [getHistory]
      rw [if_pos (by omega)]
      exact drop_sub_length_eq_min _ n
  · simp [getDeliveryHistory]
  · constructor
    · simp only [getDeliveryHistory]
      rw [if_pos (by omega)]
    · simp only [getDeliveryHistory]
      rw [if_pos (by omega)]
      exact drop_sub_length_eq_min _ n

/-- Witness for C10 at concrete inputs. -/
theorem history_limit_zero_c10_witness :
    getHistory [sampleEvent, sampleEvent2] none (some 1)
      = (getHistory [sampleEvent, sampleEvent2] none none).drop
          ((getHistory [sampleEvent, sampleEvent2] none none).length - 1) ∧
    (getHistory [sampleEvent, sampleEvent2] none (some 1)).length
      = min 1 (getHistory [sampleEvent, sampleEvent2] none none).length :=
  history_limit_zero_c10.2.1 [sampleEvent, sampleEvent2] none 1 (by decide)

/-- Step equation: failed resolution with retries left. -/
theorem attemptDelivery_ok_retry (w : WebhookConfig) (t : Nat → DeliveryOutcome)
    (now rc : Nat) (ht : t rc = DeliveryOutcome.ok false) (hlt : rc < w.retryCount) :
    attemptDelivery w t now rc =
      ((attemptDelivery w t now (rc + 1)).1,
       okResult w false rc now :: (attemptDelivery w t now (rc + 1)).2) := by
  rw [attemptDelivery.eq_def, ht]
  dsimp only
  rw [dif_pos ⟨rfl, hlt⟩]
  rfl

/-- Step equation: failed resolution with retries exhausted. -/
theorem attemptDelivery_ok_final (w : WebhookConfig) (t : Nat → DeliveryOutcome)
    (now rc : Nat) (success : Bool) (ht : t rc = DeliveryOutcome.ok success)
    (hstop : success = true ∨ ¬ rc < w.retryCount) :
    attemptDelivery w t now rc = (okResult w success rc now, [okResult w success rc now]) := by
  rw [attemptDelivery.eq_def, ht]
  dsimp only
  rw [dif_neg (by rcases hstop with h | h <;> simp [h])]
  rfl

/-- Step equation: thrown error with retries left. -/
theorem attemptDelivery_thrown_retry (w : WebhookConfig) (t : Nat → DeliveryOutcome)
    (now rc : Nat) (msg : String) (ht : t rc = DeliveryOutcome.thrown msg)
    (hlt : rc < w.retryCount) :
    attemptDelivery w t now rc =
      ((attemptDelivery w t now (rc + 1)).1,
       errResult w msg rc now :: (attemptDelivery w t now (rc + 1)).2) := by
  rw [attemptDelivery.eq_def, ht]
  dsimp only
  rw [dif_pos hlt]
  rfl

/-- Step equation: thrown error with retries exhausted. -/
theorem attemptDelivery_thrown_final (w : WebhookConfig) (t : Nat → DeliveryOutcome)
    (now rc : Nat) (msg : String) (ht : t rc = DeliveryOutcome.thrown msg)
    (hstop : ¬ rc < w.retryCount) :
    attemptDelivery w t now rc = (errResult w msg rc now, [errResult w msg rc now]) := by
  rw [attemptDelivery.eq_def, ht]
  dsimp only
  rw [dif_neg hstop]
  rfl

/-- On an all-failing transport, `attemptDelivery` starting at attempt
`rc ≤ retryCount` records one result per remaining attempt and ends with a
failed final result recorded at attempt number `retryCount`. -/
theorem attemptDelivery_allFail (w : WebhookConfig) (t : Nat → DeliveryOutcome) (now : Nat)
    (hfail : ∀ n, isFailure (t n) = true) :
    ∀ k rc, w.retryCount - rc = k → rc ≤ w.retryCount →
      (attemptDelivery w t now rc).2.length = w.retryCount + 1 - rc ∧
      (attemptDelivery w t now rc).1.success = false ∧
      (attemptDelivery w t now rc).1.retryCount = w.retryCount ∧
      (attemptDelivery w t now rc).2.getLast? = some (attemptDelivery w t now rc).1 := by
  intro k
  induction k with
  | zero =>
    intro rc hk hle
    have hrc : rc = w.retryCount := by omega
    have h := hfail rc
    cases ht : t rc with
    | ok success =>
      rw [ht] at h
      simp only [isFailure, Bool.not_eq_true'] at h
      subst h
      rw [attemptDelivery_ok_final w t now rc false ht (Or.inr (by omega))]
      exact ⟨by simp; omega, rfl, by simp [okResult, hrc], rfl⟩
    | thrown msg =>
      rw [attemptDelivery_thrown_final w t now rc msg ht (by omega)]
      exact ⟨by simp; omega, rfl, by simp [errResult, hrc], rfl⟩
  | succ k ih =>
    intro rc hk hle
    have hlt : rc < w.retryCount := by omega
    have hrec := ih (rc + 1) (by omega) (by omega)
    have hne : (attemptDelivery w t now (rc + 1)).2 ≠ [] := by
      intro hnil
      have := hrec.1
      rw [hnil] at this
      simp at this
      omega
    have hlast : ∀ (r : WebhookDeliveryResult),
        (r :: (attemptDelivery w t now (rc + 1)).2).getLast?
          = some (attemptDelivery w t now (rc + 1)).1 := by
      intro r
      cases hcons : (attemptDelivery w t now (rc + 1)).2 with
      | nil => exact absurd hcons hne
      | cons y ys =>
        rw [List.getLast?_cons_cons]
        rw [hcons] at hrec
        exact hrec.2.2.2
    have h := hfail rc
    cases ht : t rc with
    | ok success =>
      rw [ht] at h
      simp only [isFailure, Bool.not_eq_true'] at h
      subst h
      rw [attemptDelivery_ok_retry w t now rc ht hlt]
      refine ⟨?_, hrec.2.1, hrec.2.2.1, hlast _⟩
      simp only [List.length_cons, hrec.1]
      omega
    | thrown msg =>
      rw [attemptDelivery_thrown_retry w t now rc msg ht hlt]
      refine ⟨?_, hrec.2.1, hrec.2.2.1, hlast _⟩
      simp only [List.length_cons, hrec.1]
      omega

/-- C8 — `attemptDelivery` records one `WebhookDeliveryResult` per attempt
regardless of outcome, retries only while the attempt number is strictly
below `webhook.retryCount`, and returns on the first success.  On an
always-failing transport it records exactly `retryCount + 1` results
(initial attempt plus `retryCount` retries), the last one the failed final
result; a transport succeeding on the first attempt yields exactly one
recorded result and an immediate success. -/
theorem webhook_retry_records_c8 :
    (∀ (w : WebhookConfig) (t : Nat → DeliveryOutcome) (now : Nat),
      (∀ n, isFailure (t n) = true) →
      (attemptDelivery w t now 0).2.length = w.retryCount + 1 ∧
      (attemptDelivery w t now 0).1.success = false ∧
      (attemptDelivery w t now 0).1.retryCount = w.retryCount ∧
      (attemptDelivery w t now 0).2.getLast? = some (attemptDelivery w t now 0).1) ∧
    (∀ (w : WebhookConfig) (t : Nat → DeliveryOutcome) (now : Nat),
      t 0 = DeliveryOutcome.ok true →
      (attemptDelivery w t now 0).1.success = true ∧
      (attemptDelivery w t now 0).2.length = 1) := by
  constructor
  · intro w t now hfail
    have h := attemptDelivery_allFail w t now hfail (w.retryCount - 0) 0 rfl (by omega)
    exact ⟨by rw [h.1]; omega, h.2.1, h.2.2.1, h.2.2.2⟩
  · intro w t now h0
    rw [attemptDelivery_ok_final w t now 0 true h0 (Or.inl rfl)]
    exact ⟨rfl, rfl⟩

/-- Witness for C8: a webhook with `retryCount = 3` and an always-failing
transport records exactly 4 delivery results, the last being the failed
final result. -/
theorem webhook_retry_records_c8_witness :
    (attemptDelivery sampleWebhook (fun _ => DeliveryOutcome.ok false) 0 0).2.length = 4 ∧
    (attemptDelivery sampleWebhook (fun _ => DeliveryOutcome.ok false) 0 0).1.success = false ∧
    (attemptDelivery sampleWebhook (fun _ => DeliveryOutcome.ok false) 0 0).1.retryCount = 3 ∧
    (attemptDelivery sampleWebhook (fun _ => DeliveryOutcome.ok false) 0 0).2.getLast?
      = some (attemptDelivery sampleWebhook (fun _ => DeliveryOutcome.ok false) 0 0).1 :=
  webhook_retry_records_c8.1 sampleWebhook (fun _ => DeliveryOutcome.ok false) 0 (fun _ => rfl)

/-- Every result recorded by `attemptDelivery` carries the webhook's id,
and at least one result is recorded. -/
theorem attemptDelivery_records_id (w : WebhookConfig) (t : Nat → DeliveryOutcome)
    (now : Nat) : ∀ rc,
    (attemptDelivery w t now rc).2 ≠ [] ∧
    ∀ r ∈ (attemptDelivery w t now rc).2, r.webhookId = w.id := by
  intro rc
  induction rc using attemptDelivery.induct w t now with
  | case1 rc success ht hcond ih =>
    obtain ⟨hfalse, hlt⟩ := hcond
    subst hfalse
    rw [attemptDelivery_ok_retry w t now rc ht hlt]
    refine ⟨by simp, ?_⟩
    intro r hr
    rcases List.mem_cons.1 hr with h | h
    · subst h; rfl
    · exact ih.2 r h
  | case2 rc success ht hcond =>
    have hstop : success = true ∨ ¬ rc < w.retryCount := by
      by_cases hs : success = true
      · exact Or.inl hs
      · refine Or.inr fun hlt => hcond ⟨by simpa using hs, hlt⟩
    rw [attemptDelivery_ok_final w t now rc success ht hstop]
    refine ⟨by simp, ?_⟩
    intro r hr
    rcases List.mem_cons.1 hr with h | h
    · subst h; rfl
    · simp at h
  | case3 rc msg ht hlt ih =>
    rw [attemptDelivery_thrown_retry w t now rc msg ht hlt]
    refine ⟨by simp, ?_⟩
    intro r hr
    rcases List.mem_cons.1 hr with h | h
    · subst h; rfl
    · exact ih.2 r h
  | case4 rc msg ht hstop =>
    rw [attemptDelivery_thrown_final w t now rc msg ht hstop]
    refine ⟨by simp, ?_⟩
    intro r hr
    rcases List.mem_cons.1 hr with h | h
    · subst h; rfl
    · simp at h

/-- C9 — bus-driven dispatch delivers exactly to the webhooks that are
active and subscribed to the event's type: (1) the outcome of
`deliverToMatchingWebhooks` is independent of the transport's behaviour on
every other webhook (their transport is never invoked); (2) every recorded
result belongs to an active webhook whose `events` include the event's
type; (3) every such webhook receives at least one delivery attempt;
(4) `deliverToWebhook` on an inactive webhook returns the synthetic
"Webhook is inactive" failure without touching the transport. -/
theorem webhook_matching_only_c9 :
    (∀ (webhooks : List WebhookConfig) (e : Event)
       (t₁ t₂ : WebhookConfig → Nat → DeliveryOutcome) (now : Nat),
      (∀ w ∈ webhooks, w.active = true → w.events.contains e.type = true → t₁ w = t₂ w) →
      deliverToMatchingWebhooks webhooks e t₁ now
        = deliverToMatchingWebhooks webhooks e t₂ now) ∧
    (∀ (webhooks : List WebhookConfig) (e : Event)
       (t : WebhookConfig → Nat → DeliveryOutcome) (now : Nat)
       (r : WebhookDeliveryResult), r ∈ recordedResults webhooks e t now →
      ∃ w, w ∈ webhooks ∧ w.active = true ∧ w.events.contains e.type = true ∧
        r.webhookId = w.id) ∧
    (∀ (webhooks : List WebhookConfig) (e : Event)
       (t : WebhookConfig → Nat → DeliveryOutcome) (now : Nat)
       (w : WebhookConfig), w ∈ webhooks → w.active = true →
        w.events.contains e.type = true →
      ∃ r, r ∈ recordedResults webhooks e t now ∧ r.webhookId = w.id) ∧
    (∀ (webhooks : List WebhookConfig) (wid : String) (e : Event)
       (t : Nat → DeliveryOutcome) (now : Nat) (w : WebhookConfig),
      webhooks.find? (fun x => x.id == wid) = some w → w.active = false →
      deliverToWebhook webhooks wid e t now =
        ({ webhookId := wid
           success := false
           statusCode := none
           error := some "Webhook is inactive"
           retryCount := 0
           deliveredAt := now }, false)) := by
  refine ⟨?_, ?_, ?_, ?_⟩
  · intro webhooks e t₁ t₂ now hagree
    unfold deliverToMatchingWebhooks
    refine List.map_congr_left ?_
    intro w hw
    rcases List.mem_filter.1 hw with ⟨hmem, hcond⟩
    rw [Bool.and_eq_true] at hcond
    obtain ⟨hact, hevt⟩ := hcond
    rw [hagree w hmem hact hevt]
  · intro webhooks e t now r hr
    unfold recordedResults at hr
    rcases List.mem_flatMap.1 hr with ⟨pair, hpair, hrp⟩
    unfold deliverToMatchingWebhooks at hpair
    rcases List.mem_map.1 hpair with ⟨w, hw, hpw⟩
    rcases List.mem_filter.1 hw with ⟨hmem, hcond⟩
    rw [Bool.and_eq_true] at hcond
    obtain ⟨hact, hevt⟩ := hcond
    refine ⟨w, hmem, hact, hevt, ?_⟩
    subst hpw
    exact (attemptDelivery_records_id w (t w) now 0).2 r hrp
  · intro webhooks e t now w hmem hact hevt
    have hw : w ∈ webhooks.filter (fun w => w.active && w.events.contains e.type) :=
      List.mem_filter.2 ⟨hmem, by rw [hact, hevt]; rfl⟩
    have hpair : attemptDelivery w (t w) now 0
        ∈ deliverToMatchingWebhooks webhooks e t now := by
      unfold deliverToMatchingWebhooks
      exact List.mem_map.2 ⟨w, hw, rfl⟩
    have hne := (attemptDelivery_records_id w (t w) now 0).1
    cases hcons : (attemptDelivery w (t w) now 0).2 with
    | nil => exact absurd hcons hne
    | cons y ys =>
      refine ⟨y, ?_, ?_⟩
      · unfold recordedResults
        refine List.mem_flatMap.2 ⟨attemptDelivery w (t w) now 0, hpair, ?_⟩
        rw [hcons]
        exact List.mem_cons_self y ys
      · have : y ∈ (attemptDelivery w (t w) now 0).2 := by
          rw [hcons]; exact List.mem_cons_self y ys
        exact (attemptDelivery_records_id w (t w) now 0).2 y this
  · intro webhooks wid e t now w hfind hact
    unfold deliverToWebhook
    rw [hfind]
    dsimp only
    rw [if_neg (by rw [hact]; simp)]

/-- Witness for C9: an inactive registered webhook gets the synthetic
inactive failure and its transport is not invoked. -/
theorem webhook_matching_only_c9_witness :
    deliverToWebhook [{ sampleWebhook with active := false }] "wh-1" sampleEvent
        (fun _ => DeliveryOutcome.ok true) 0 =
      ({ webhookId := "wh-1"
         success := false
         statusCode := none
         error := some "Webhook is inactive"
         retryCount := 0
         deliveredAt := 0 }, false) :=
  webhook_matching_only_c9.2.2.2 [{ sampleWebhook with active := false }] "wh-1" sampleEvent
    (fun _ => DeliveryOutcome.ok true) 0 { sampleWebhook with active := false }
    (by decide) rfl

/-- The fan-out fold records one settlement per matched subscription, in
order, regardless of the subscription-map updates performed along the
way. -/
theorem publish_foldl_results (e : Event) (matched : List Subscription) :
    ∀ (subs0 : List Subscription) (acc : List (Nat × Bool)),
      (matched.foldl (publishStep e) (subs0, acc)).2
        = acc ++ matched.map (fun s => (s.id, s.outcome e)) := by
  induction matched with
  | nil => intro subs0 acc; simp
  | cons m ms ih =>
    intro subs0 acc
    rw [List.foldl_cons, List.map_cons]
    show (ms.foldl (publishStep e) (publishStep e (subs0, acc) m)).2 = _
    rcases hstep : publishStep e (subs0, acc) m with ⟨subs1, acc1⟩
    have hacc : acc1 = acc ++ [(m.id, m.outcome e)] := by
      simp [publishStep] at hstep
      exact hstep.2.symm
    rw [ih subs1 acc1, hacc]
    simp

/-- The fan-out fold removes exactly the matched `once` subscriptions from
the subscription map. -/
theorem publish_foldl_subs (e : Event) (matched : List Subscription) :
    ∀ (subs0 : List Subscription) (acc : List (Nat × Bool)),
      (matched.foldl (publishStep e) (subs0, acc)).1
        = subs0.filter (fun x => !(matched.any (fun m => m.once && m.id == x.id))) := by
  induction matched with
  | nil => intro subs0 acc; simp
  | cons m ms ih =>
    intro subs0 acc
    rw [List.foldl_cons]
    show (ms.foldl (publishStep e) (publishStep e (subs0, acc) m)).1 = _
    rcases hstep : publishStep e (subs0, acc) m with ⟨subs1, acc1⟩
    have hsubs : subs1 = if m.once then subs0.filter (fun x => x.id ≠ m.id) else subs0 := by
      simp only [publishStep] at hstep
      exact congrArg Prod.fst hstep |>.symm
    rw [ih subs1 acc1, hsubs]
    by_cases honce : m.once
    · rw [if_pos honce, List.filter_filter]
      refine List.filter_congr ?_
      intro x _
      by_cases hid : m.id = x.id
      · simp [honce, hid]
      · simp [honce, hid, Ne.symm hid]
    · rw [if_neg honce]
      refine (List.filter_congr ?_)
      intro x _
      simp [Bool.eq_false_iff.2 honce]

/-- The settlement record of one `publish`. -/
theorem publish_results (bus : EventBus) (e : Event) :
    (publish bus e).2 = (matchedSubs bus e).map (fun s => (s.id, s.outcome e)) := by
  unfold publish
  exact publish_foldl_results e (matchedSubs bus e) bus.subscriptions []

/-- The subscription map after one `publish`. -/
theorem publish_subscriptions (bus : EventBus) (e : Event) :
    (publish bus e).1.subscriptions
      = bus.subscriptions.filter
          (fun x => !((matchedSubs bus e).any (fun m => m.once && m.id == x.id))) := by
  unfold publish
  exact publish_foldl_subs e (matchedSubs bus e) bus.subscriptions []

/-- C2 — `publish(E)` settles every matched handler (eventType matches and
the optional filter accepts) and only those: the returned settlement
record is exactly one entry per matched subscription, in order, whatever
the individual outcomes; a handler that rejects still occurs in the
record (its failure is caught) and removes no sibling entry, and `publish`
is a total function (it never propagates a handler failure). -/
theorem publish_fanin_c2 (bus : EventBus) (e : Event) :
    (publish bus e).2 = (matchedSubs bus e).map (fun s => (s.id, s.outcome e)) ∧
    (∀ sub ∈ bus.subscriptions,
      (matchesEventType e.type sub.eventType && passesFilter e sub.filter) = true →
      (sub.id, sub.outcome e) ∈ (publish bus e).2) ∧
    (∀ p ∈ (publish bus e).2, ∃ sub ∈ matchedSubs bus e, p = (sub.id, sub.outcome e)) := by
  refine ⟨publish_results bus e, ?_, ?_⟩
  · intro sub hmem hcond
    rw [publish_results bus e]
    refine List.mem_map.2 ⟨sub, ?_, rfl⟩
    exact List.mem_filter.2 ⟨hmem, hcond⟩
  · intro p hp
    rw [publish_results bus e] at hp
    rcases List.mem_map.1 hp with ⟨sub, hsub, hps⟩
    exact ⟨sub, hsub, hps.symm⟩

/-- Witness for C2: on the sample bus, the failing plain handler and the
`once` handler are both settled by one publish, and the record is exactly
their two settlements. -/
theorem publish_fanin_c2_witness :
    (publish sampleBus sampleEvent).2
        = (matchedSubs sampleBus sampleEvent).map (fun s => (s.id, s.outcome sampleEvent)) ∧
    (sampleFailSub.id, sampleFailSub.outcome sampleEvent) ∈ (publish sampleBus sampleEvent).2 :=
  ⟨(publish_fanin_c2 sampleBus sampleEvent).1,
   (publish_fanin_c2 sampleBus sampleEvent).2.1 sampleFailSub
     (List.mem_cons_of_mem _ (List.mem_cons_self _ _)) rfl⟩

/-- In a subscription list with pairwise-distinct ids, two members sharing
an id are the same subscription. -/
theorem sub_eq_of_id_eq {l : List Subscription} (h : (l.map (fun s => s.id)).Nodup)
    {x y : Subscription} (hx : x ∈ l) (hy : y ∈ l) (hid : x.id = y.id) : x = y := by
  induction l with
  | nil => cases hx
  | cons a t ih =>
    rw [List.map_cons, List.nodup_cons] at h
    rcases List.mem_cons.1 hx with hxa | hxt <;> rcases List.mem_cons.1 hy with hya | hyt
    · rw [hxa, hya]
    · exfalso
      apply h.1
      rw [← hxa, hid]
      exact List.mem_map.2 ⟨y, hyt, rfl⟩
    · exfalso
      apply h.1
      rw [← hya, ← hid]
      exact List.mem_map.2 ⟨x, hxt, rfl⟩
    · exact ih h.2 hxt hyt

/-- In a subscription list with pairwise-distinct ids, at most one entry
carries any given id. -/
theorem countP_id_le_one (l : List Subscription) (i : Nat)
    (h : (l.map (fun s => s.id)).Nodup) : l.countP (fun s => s.id == i) ≤ 1 := by
  induction l with
  | nil => simp
  | cons a t ih =>
    rw [List.map_cons, List.nodup_cons] at h
    by_cases ha : a.id = i
    · rw [List.countP_cons_of_pos _ _ (by simp [ha])]
      have ht : t.countP (fun s => s.id == i) = 0 := by
        rw [List.countP_eq_zero]
        intro x hx
        simp only [beq_iff_eq]
        intro hxi
        exact h.1 (List.mem_map.2 ⟨x, hx, by rw [hxi, ha]⟩)
      omega
    · rw [List.countP_cons_of_neg _ _ (by simp [ha])]
      exact ih h.2

/-- C7 — a handler registered through `once` is invoked at most once
across two sequential (non-overlapping) publishes: the wrapper
unsubscribes its own id before the user handler body runs, so after the
first matching publish the subscription is gone from the map and the
second publish cannot match it. -/
theorem once_at_most_once_c7 (bus : EventBus) (e1 e2 : Event) (sub : Subscription)
    (hnd : (bus.subscriptions.map (fun s => s.id)).Nodup)
    (hmem : sub ∈ bus.subscriptions) (honce : sub.once = true) :
    (sub ∈ matchedSubs bus e1 →
      ∀ x ∈ (publish bus e1).1.subscriptions, x.id ≠ sub.id) ∧
    ((publish bus e1).2 ++ (publish (publish bus e1).1 e2).2).countP
        (fun r => r.1 == sub.id) ≤ 1 := by
  have hremoved : sub ∈ matchedSubs bus e1 →
      ∀ x ∈ (publish bus e1).1.subscriptions, x.id ≠ sub.id := by
    intro hm x hx
    rw [publish_subscriptions bus e1] at hx
    rcases List.mem_filter.1 hx with ⟨_, hcond⟩
    rw [Bool.not_eq_eq_eq_not, Bool.not_true, List.any_eq_false] at hcond
    have := hcond sub hm
    simp only [honce, Bool.true_and, beq_iff_eq] at this
    intro hxe
    exact this hxe.symm
  refine ⟨hremoved, ?_⟩
  rw [List.countP_append]
  have hcount1 : (publish bus e1).2.countP (fun r => r.1 == sub.id)
      = (matchedSubs bus e1).countP (fun s => s.id == sub.id) := by
    rw [publish_results bus e1, List.countP_map]
    rfl
  have hcount2 : (publish (publish bus e1).1 e2).2.countP (fun r => r.1 == sub.id)
      = (matchedSubs (publish bus e1).1 e2).countP (fun s => s.id == sub.id) := by
    rw [publish_results _ e2, List.countP_map]
    rfl
  by_cases hm : sub ∈ matchedSubs bus e1
  · -- first publish ran the handler and removed the subscription;
    -- the second publish cannot match the id at all
    have h2 : (matchedSubs (publish bus e1).1 e2).countP (fun s => s.id == sub.id) = 0 := by
      rw [List.countP_eq_zero]
      intro x hx
      have hxmem : x ∈ (publish bus e1).1.subscriptions :=
        (List.mem_filter.1 hx).1
      simp only [beq_iff_eq]
      exact hremoved hm x hxmem
    have h1 : (matchedSubs bus e1).countP (fun s => s.id == sub.id) ≤ 1 := by
      calc (matchedSubs bus e1).countP (fun s => s.id == sub.id)
          ≤ bus.subscriptions.countP (fun s => s.id == sub.id) :=
            List.Sublist.countP_le _ (List.filter_sublist _)
        _ ≤ 1 := countP_id_le_one _ _ hnd
    omega
  · -- the handler is not matched by the first publish, so the first
    -- record has no entry with its id, and the second at most one
    have h1 : (matchedSubs bus e1).countP (fun s => s.id == sub.id) = 0 := by
      rw [List.countP_eq_zero]
      intro x hx
      simp only [beq_iff_eq]
      intro hxe
      have hxmem : x ∈ bus.subscriptions := (List.mem_filter.1 hx).1
      have hxs : x = sub := sub_eq_of_id_eq hnd hxmem hmem hxe
      exact hm (hxs ▸ hx)
    have hnd2 : ((publish bus e1).1.subscriptions.map (fun s => s.id)).Nodup := by
      rw [publish_subscriptions bus e1]
      exact List.Nodup.sublist (List.Sublist.map _ (List.filter_sublist _)) hnd
    have h2 : (matchedSubs (publish bus e1).1 e2).countP (fun s => s.id == sub.id) ≤ 1 := by
      calc (matchedSubs (publish bus e1).1 e2).countP (fun s => s.id == sub.id)
          ≤ (publish bus e1).1.subscriptions.countP (fun s => s.id == sub.id) :=
            List.Sublist.countP_le _ (List.filter_sublist _)
        _ ≤ 1 := countP_id_le_one _ _ hnd2
    omega

/-- Witness for C7 on the sample bus: publishing the matching event twice
invokes the `once` handler at most once, and the first publish removes its
subscription. -/
theorem once_at_most_once_c7_witness :
    (sampleOnceSub ∈ matchedSubs sampleBus sampleEvent →
      ∀ x ∈ (publish sampleBus sampleEvent).1.subscriptions, x.id ≠ sampleOnceSub.id) ∧
    ((publish sampleBus sampleEvent).2
        ++ (publish (publish sampleBus sampleEvent).1 sampleEvent).2).countP
        (fun r => r.1 == sampleOnceSub.id) ≤ 1 :=
  once_at_most_once_c7 sampleBus sampleEvent sampleEvent sampleOnceSub
    (by decide) (List.mem_cons_self _ _) rfl

/-! ### Generic list facts about find?, eraseP and element replacement -/

theorem find?_append_first {α : Type} (p : α → Bool) (l₁ l₂ : List α) (a : α)
    (h₁ : ∀ x ∈ l₁, p x = false) (ha : p a = true) :
    (l₁ ++ a :: l₂).find? p = some a := by
  induction l₁ with
  | nil =>
    rw [List.nil_append]
    exact List.find?_cons_of_pos _ ha
  | cons b t ih =>
    rw [List.cons_append,
      List.find?_cons_of_neg _ (by simp [h₁ b (List.mem_cons_self _ _)])]
    exact ih fun x hx => h₁ x (List.mem_cons_of_mem _ hx)

theorem eraseP_append_first {α : Type} (p : α → Bool) (l₁ l₂ : List α) (a : α)
    (h₁ : ∀ x ∈ l₁, p x = false) (ha : p a = true) :
    (l₁ ++ a :: l₂).eraseP p = l₁ ++ l₂ := by
  induction l₁ with
  | nil =>
    rw [List.nil_append, List.eraseP_cons, ha]
    rfl
  | cons b t ih =>
    rw [List.cons_append, List.eraseP_cons, h₁ b (List.mem_cons_self _ _)]
    rw [ih fun x hx => h₁ x (List.mem_cons_of_mem _ hx)]
    rfl

theorem setMsg_append_first (l₁ l₂ : List QueueMessage) (msg m' : QueueMessage)
    (h : ∀ x ∈ l₁ ++ l₂, x.id ≠ msg.id) :
    setMsg (l₁ ++ msg :: l₂) msg.id m' = l₁ ++ m' :: l₂ := by
  unfold setMsg
  rw [List.map_append, List.map_cons, if_pos rfl]
  congr 1
  · refine (List.map_congr_left ?_).trans (List.map_id _)
    intro x hx
    exact if_neg (h x (List.mem_append_left _ hx))
  · congr 1
    refine (List.map_congr_left ?_).trans (List.map_id _)
    intro x hx
    exact if_neg (h x (List.mem_append_right _ hx))

/-! ### Behaviour of one processMessage attempt on a tracked message -/

/-- A tracked message is what `find?` returns for its id. -/
theorem tracks_find? {s : EventQueue} {msg : QueueMessage} (ht : tracks s msg) :
    s.queue.find? (fun x => x.id = msg.id) = some msg := by
  obtain ⟨l₁, l₂, hq, hid⟩ := ht
  rw [hq]
  refine find?_append_first _ l₁ l₂ msg ?_ (by simp)
  intro x hx
  simpa using hid x (List.mem_append_left _ hx)

/-- Successful attempt on a tracked message: completed counter up, message
removed from the pending list, returned with status completed. -/
theorem processAttempt_success_eq (s : EventQueue) (msg : QueueMessage) (now : Nat)
    (ht : tracks s msg) :
    processAttempt s msg.id true now
      = ({ s with
            queue := removeFromQueue s.queue msg.id
            completedCount := s.completedCount + 1 }, some (doneMsg msg now)) := by
  unfold processAttempt
  rw [tracks_find? ht]
  dsimp only
  rw [if_pos rfl]
  rfl

/-- Failed attempt with retries left on a tracked message: backoff
reschedule in place. -/
theorem processAttempt_retry_eq (s : EventQueue) (msg : QueueMessage) (now : Nat)
    (ht : tracks s msg) (hlt : msg.retryCount + 1 < msg.maxRetries) :
    processAttempt s msg.id false now
      = ({ s with queue := setMsg s.queue msg.id (retryMsg msg s.options.retryDelay now) },
         some (retryMsg msg s.options.retryDelay now)) := by
  unfold processAttempt
  rw [tracks_find? ht]
  dsimp only
  rw [if_neg Bool.false_ne_true,
    if_neg (show ¬ msg.maxRetries ≤ msg.retryCount + 1 by omega)]
  rfl

/-- Failed attempt exhausting the retry budget on a tracked message:
dead-letter move and failed counter up. -/
theorem processAttempt_dead_eq (s : EventQueue) (msg : QueueMessage) (now : Nat)
    (ht : tracks s msg) (hge : msg.maxRetries ≤ msg.retryCount + 1) :
    processAttempt s msg.id false now
      = ({ s with
            queue := removeFromQueue s.queue msg.id
            deadLetter := s.deadLetter ++ [deadMsg msg]
            failedCount := s.failedCount + 1 }, some (deadMsg msg)) := by
  unfold processAttempt
  rw [tracks_find? ht]
  dsimp only
  rw [if_neg Bool.false_ne_true,
    if_pos (show msg.maxRetries ≤ msg.retryCount + 1 from hge)]
  rfl

/-- Removing a tracked message erases exactly its occurrence. -/
theorem removeFromQueue_eq {s : EventQueue} {msg : QueueMessage} (ht : tracks s msg) :
    ∃ l₁ l₂, s.queue = l₁ ++ msg :: l₂ ∧
      removeFromQueue s.queue msg.id = l₁ ++ l₂ ∧
      ∀ x ∈ l₁ ++ l₂, x.id ≠ msg.id := by
  obtain ⟨l₁, l₂, hq, hid⟩ := ht
  refine ⟨l₁, l₂, hq, ?_, hid⟩
  rw [hq]
  unfold removeFromQueue
  refine eraseP_append_first _ l₁ l₂ msg ?_ (by simp)
  intro x hx
  simpa using hid x (List.mem_append_left _ hx)

/-- After removing a tracked message, no pending entry has its id. -/
theorem removeFromQueue_no_id {s : EventQueue} {msg : QueueMessage} (ht : tracks s msg) :
    ∀ x ∈ removeFromQueue s.queue msg.id, x.id ≠ msg.id := by
  obtain ⟨l₁, l₂, _, herase, hid⟩ := removeFromQueue_eq ht
  rw [herase]
  exact hid

/-- Updating a tracked message in place keeps it tracked (when the update
preserves the id). -/
theorem tracks_setMsg {s : EventQueue} {msg : QueueMessage} (ht : tracks s msg)
    (m' : QueueMessage) (hid' : m'.id = msg.id) :
    ∃ l₁ l₂, setMsg s.queue msg.id m' = l₁ ++ m' :: l₂ ∧
      ∀ x ∈ l₁ ++ l₂, x.id ≠ m'.id := by
  obtain ⟨l₁, l₂, hq, hid⟩ := ht
  refine ⟨l₁, l₂, ?_, ?_⟩
  · rw [hq]
    exact setMsg_append_first l₁ l₂ msg m' hid
  · rw [hid']
    exact hid

/-- Priority insertion places the message somewhere in the list; when no
other entry carries its id it is tracked. -/
theorem insertByPriority_tracked (q : List QueueMessage) (message : QueueMessage)
    (hfresh : ∀ x ∈ q, x.id ≠ message.id) :
    ∃ l₁ l₂, insertByPriority q message = l₁ ++ message :: l₂ ∧
      ∀ x ∈ l₁ ++ l₂, x.id ≠ message.id := by
  unfold insertByPriority
  cases h : q.findIdx? (fun m => m.priority < message.priority) with
  | none =>
    refine ⟨q, [], rfl, ?_⟩
    intro x hx
    rw [List.append_nil] at hx
    exact hfresh x hx
  | some i =>
    refine ⟨q.take i, q.drop i, rfl, ?_⟩
    intro x hx
    rw [List.take_append_drop] at hx
    exact hfresh x hx

/-- A freshly enqueued message is tracked by the queue. -/
theorem enqueueMsg_tracks (s : EventQueue) (e : Event) (p : Int) (sch : Option Nat)
    (hfresh : ∀ x ∈ s.queue, x.id < s.nextId) :
    tracks (enqueueMsg s e p sch).1 (enqueueMsg s e p sch).2 := by
  have hne : ∀ x ∈ s.queue, x.id ≠ (enqueueMsg s e p sch).2.id := by
    intro x hx heq
    have := hfresh x hx
    rw [heq] at this
    exact lt_irrefl _ this
  exact insertByPriority_tracked s.queue (enqueueMsg s e p sch).2 hne

/-- A failed attempt with retries left keeps the message tracked and only
reschedules it; counters, dead-letter list and options are untouched. -/
theorem tracks_retry_step (s : EventQueue) (msg : QueueMessage) (now : Nat)
    (ht : tracks s msg) (hlt : msg.retryCount + 1 < msg.maxRetries) :
    tracks (processAttempt s msg.id false now).1 (retryMsg msg s.options.retryDelay now) ∧
    (processAttempt s msg.id false now).1.deadLetter = s.deadLetter ∧
    (processAttempt s msg.id false now).1.failedCount = s.failedCount ∧
    (processAttempt s msg.id false now).1.completedCount = s.completedCount ∧
    (processAttempt s msg.id false now).1.options = s.options ∧
    (processAttempt s msg.id false now).2 = some (retryMsg msg s.options.retryDelay now) := by
  rw [processAttempt_retry_eq s msg now ht hlt]
  refine ⟨?_, rfl, rfl, rfl, rfl, rfl⟩
  obtain ⟨l₁, l₂, hset, hid⟩ := tracks_setMsg ht (retryMsg msg s.options.retryDelay now) rfl
  exact ⟨l₁, l₂, hset, hid⟩

/-- Iterating failed attempts (each leaving retries) keeps the message
tracked, adds one retry per attempt, and touches no counter. -/
theorem failAttempts_tracks (nows : List Nat) : ∀ (s : EventQueue) (msg : QueueMessage),
    tracks s msg → msg.retryCount + nows.length < msg.maxRetries →
    ∃ msg', tracks (failAttempts s msg.id nows) msg' ∧
      msg'.id = msg.id ∧
      msg'.retryCount = msg.retryCount + nows.length ∧
      msg'.maxRetries = msg.maxRetries ∧
      (failAttempts s msg.id nows).deadLetter = s.deadLetter ∧
      (failAttempts s msg.id nows).failedCount = s.failedCount ∧
      (failAttempts s msg.id nows).completedCount = s.completedCount ∧
      (failAttempts s msg.id nows).options = s.options := by
  induction nows with
  | nil =>
    intro s msg ht _
    exact ⟨msg, ht, rfl, by simp, rfl, rfl, rfl, rfl, rfl⟩
  | cons now ns ih =>
    intro s msg ht hlen
    have hlt : msg.retryCount + 1 < msg.maxRetries := by
      simp only [List.length_cons] at hlen
      omega
    have hstep := tracks_retry_step s msg now ht hlt
    have hchain : failAttempts s msg.id (now :: ns)
        = failAttempts (processAttempt s msg.id false now).1
            (retryMsg msg s.options.retryDelay now).id ns := rfl
    obtain ⟨msg', ht', hid', hrc', hmr', hdl', hfc', hcc', hop'⟩ :=
      ih (processAttempt s msg.id false now).1 (retryMsg msg s.options.retryDelay now)
        hstep.1 (by simp only [List.length_cons] at hlen; simp [retryMsg]; omega)
    refine ⟨msg', ?_, ?_, ?_, ?_, ?_, ?_, ?_, ?_⟩
    · rw [hchain]; exact ht'
    · rw [hid']; rfl
    · rw [hrc']
      simp [retryMsg, List.length_cons]
      omega
    · rw [hmr']; rfl
    · rw [hchain, hdl', hstep.2.1]
    · rw [hchain, hfc', hstep.2.2.1]
    · rw [hchain, hcc', hstep.2.2.2.1]
    · rw [hchain, hop', hstep.2.2.2.2.1]

/-- A tracked message is a member of the pending list. -/
theorem tracks_mem {s : EventQueue} {msg : QueueMessage} (ht : tracks s msg) :
    msg ∈ s.queue := by
  obtain ⟨l₁, l₂, hq, _⟩ := ht
  rw [hq]
  exact List.mem_append_right _ (List.mem_cons_self _ _)

/-- C3 — a message whose every attempt fails is dead-lettered as soon as
its incremented retryCount reaches maxRetries: after `maxRetries` failed
attempts the message has status dead_letter with `retryCount = maxRetries`,
sits in the dead-letter list, is gone from the pending list, and the
cumulative failed counter went up by exactly one. -/
theorem dead_letter_exhaust_c3 (s0 : EventQueue) (e : Event) (p : Int)
    (sch : Option Nat) (nows : List Nat) (nlast : Nat)
    (hfresh : ∀ x ∈ s0.queue, x.id < s0.nextId)
    (hlen : nows.length + 1 = s0.options.maxRetries) :
    ∃ m, (exhaustRun s0 e p sch nows nlast).2 = some m ∧
      m.id = (enqueueMsg s0 e p sch).2.id ∧
      m.status = MsgStatus.dead_letter ∧
      m.retryCount = m.maxRetries ∧
      m ∈ (exhaustRun s0 e p sch nows nlast).1.deadLetter ∧
      (∀ x ∈ (exhaustRun s0 e p sch nows nlast).1.queue,
        x.id ≠ (enqueueMsg s0 e p sch).2.id) ∧
      (exhaustRun s0 e p sch nows nlast).1.failedCount = s0.failedCount + 1 ∧
      (exhaustRun s0 e p sch nows nlast).1.completedCount = s0.completedCount := by
  have ht0 := enqueueMsg_tracks s0 e p sch hfresh
  have hrc0 : (enqueueMsg s0 e p sch).2.retryCount = 0 := rfl
  have hmr0 : (enqueueMsg s0 e p sch).2.maxRetries = s0.options.maxRetries := rfl
  obtain ⟨msg', ht', hid', hrc', hmr', hdl', hfc', hcc', hop'⟩ :=
    failAttempts_tracks nows (enqueueMsg s0 e p sch).1 (enqueueMsg s0 e p sch).2 ht0
      (by rw [hrc0, hmr0]; omega)
  set s1 := failAttempts (enqueueMsg s0 e p sch).1 (enqueueMsg s0 e p sch).2.id nows with hs1
  have hge : msg'.maxRetries ≤ msg'.retryCount + 1 := by
    rw [hmr', hrc', hrc0, hmr0]
    omega
  have heq := processAttempt_dead_eq s1 msg' nlast ht' hge
  have hrun : exhaustRun s0 e p sch nows nlast = processAttempt s1 msg'.id false nlast := by
    rw [hid']
    rfl
  refine ⟨deadMsg msg', ?_, ?_, rfl, ?_, ?_, ?_, ?_, ?_⟩
  · rw [hrun, heq]
  · show msg'.id = _
    exact hid'
  · show msg'.retryCount + 1 = msg'.maxRetries
    rw [hrc', hmr', hrc0, hmr0]
    omega
  · rw [hrun, heq]
    exact List.mem_append_right _ (List.mem_cons_self _ _)
  · rw [hrun, heq]
    intro x hx
    have hne := removeFromQueue_no_id ht' x hx
    rw [hid'] at hne
    exact hne
  · rw [hrun, heq]
    show s1.failedCount + 1 = s0.failedCount + 1
    rw [hfc']
    rfl
  · rw [hrun, heq]
    show s1.completedCount = s0.completedCount
    rw [hcc']
    rfl

/-- Witness for C3: on a fresh default queue (maxRetries 3), one message
failing three times ends dead-lettered with the failed counter at 1. -/
theorem dead_letter_exhaust_c3_witness :
    ∃ m, (exhaustRun (initQueue defaultOptions) sampleEvent 0 none [10, 20] 30).2 = some m ∧
      m.id = (enqueueMsg (initQueue defaultOptions) sampleEvent 0 none).2.id ∧
      m.status = MsgStatus.dead_letter ∧
      m.retryCount = m.maxRetries ∧
      m ∈ (exhaustRun (initQueue defaultOptions) sampleEvent 0 none [10, 20] 30).1.deadLetter ∧
      (∀ x ∈ (exhaustRun (initQueue defaultOptions) sampleEvent 0 none [10, 20] 30).1.queue,
        x.id ≠ (enqueueMsg (initQueue defaultOptions) sampleEvent 0 none).2.id) ∧
      (exhaustRun (initQueue defaultOptions) sampleEvent 0 none [10, 20] 30).1.failedCount
        = (initQueue defaultOptions).failedCount + 1 ∧
      (exhaustRun (initQueue defaultOptions) sampleEvent 0 none [10, 20] 30).1.completedCount
        = (initQueue defaultOptions).completedCount :=
  dead_letter_exhaust_c3 (initQueue defaultOptions) sampleEvent 0 none [10, 20] 30
    (by simp [initQueue]) (by decide)

/-- C4 — a failed attempt that leaves retries resets the message to
pending in place with `scheduledAt = now + retryDelay * 2 ^ retryCount`
computed from the already-incremented retryCount; consequently a message
that fails exactly twice and then succeeds ends completed with
`retryCount = 2`. -/
theorem backoff_retry_c4 :
    (∀ (s : EventQueue) (msg : QueueMessage) (now : Nat), tracks s msg →
      msg.retryCount + 1 < msg.maxRetries →
      (processAttempt s msg.id false now).2 = some (retryMsg msg s.options.retryDelay now) ∧
      (retryMsg msg s.options.retryDelay now).status = MsgStatus.pending ∧
      (retryMsg msg s.options.retryDelay now).retryCount = msg.retryCount + 1 ∧
      (retryMsg msg s.options.retryDelay now).scheduledAt
        = some (now + s.options.retryDelay * 2 ^ (msg.retryCount + 1)) ∧
      retryMsg msg s.options.retryDelay now ∈ (processAttempt s msg.id false now).1.queue ∧
      (processAttempt s msg.id false now).1.failedCount = s.failedCount) ∧
    (∀ (s0 : EventQueue) (e : Event) (p : Int) (sch : Option Nat) (n1 n2 n3 : Nat),
      (∀ x ∈ s0.queue, x.id < s0.nextId) → 3 ≤ s0.options.maxRetries →
      ∃ m, (failTwiceThenSucceed s0 e p sch n1 n2 n3).2 = some m ∧
        m.status = MsgStatus.completed ∧ m.retryCount = 2 ∧ m.processedAt = some n3 ∧
        (failTwiceThenSucceed s0 e p sch n1 n2 n3).1.completedCount
          = s0.completedCount + 1) := by
  constructor
  · intro s msg now ht hlt
    have hstep := tracks_retry_step s msg now ht hlt
    exact ⟨hstep.2.2.2.2.2, rfl, rfl, rfl, tracks_mem hstep.1, hstep.2.2.1⟩
  · intro s0 e p sch n1 n2 n3 hfresh hmr
    have ht0 := enqueueMsg_tracks s0 e p sch hfresh
    have hrc0 : (enqueueMsg s0 e p sch).2.retryCount = 0 := rfl
    have hmr0 : (enqueueMsg s0 e p sch).2.maxRetries = s0.options.maxRetries := rfl
    obtain ⟨msg', ht', hid', hrc', hmr', hdl', hfc', hcc', hop'⟩ :=
      failAttempts_tracks [n1, n2] (enqueueMsg s0 e p sch).1 (enqueueMsg s0 e p sch).2 ht0
        (by rw [hrc0, hmr0]; simp; omega)
    set s2 := failAttempts (enqueueMsg s0 e p sch).1 (enqueueMsg s0 e p sch).2.id [n1, n2]
      with hs2
    have heq := processAttempt_success_eq s2 msg' n3 ht'
    have hrun : failTwiceThenSucceed s0 e p sch n1 n2 n3
        = processAttempt s2 msg'.id true n3 := by
      rw [hid']
      rfl
    refine ⟨doneMsg msg' n3, ?_, rfl, ?_, rfl, ?_⟩
    · rw [hrun, heq]
    · show msg'.retryCount = 2
      rw [hrc', hrc0]
      simp
    · rw [hrun, heq]
      show s2.completedCount + 1 = s0.completedCount + 1
      rw [hcc']
      rfl

/-- Witness for C4: on a fresh default queue, a message failing at times
10 and 20 and succeeding at 30 ends completed with retryCount 2. -/
theorem backoff_retry_c4_witness :
    ∃ m, (failTwiceThenSucceed (initQueue defaultOptions) sampleEvent 0 none 10 20 30).2
          = some m ∧
      m.status = MsgStatus.completed ∧ m.retryCount = 2 ∧ m.processedAt = some 30 ∧
      (failTwiceThenSucceed (initQueue defaultOptions) sampleEvent 0 none 10 20 30).1.completedCount
        = (initQueue defaultOptions).completedCount + 1 :=
  backoff_retry_c4.2 (initQueue defaultOptions) sampleEvent 0 none 10 20 30
    (by simp [initQueue]) (by decide)

/-- Recursive characterization of the `findIndex` + `splice` insertion. -/
theorem insertByPriority_cons (a : QueueMessage) (t : List QueueMessage)
    (msg : QueueMessage) :
    insertByPriority (a :: t) msg =
      if a.priority < msg.priority then msg :: a :: t
      else a :: insertByPriority t msg := by
  unfold insertByPriority
  rw [List.findIdx?_cons]
  by_cases h : a.priority < msg.priority
  · rw [if_pos (by simpa using h), if_pos h]
    rfl
  · rw [if_neg (by simpa using h), if_neg h, List.findIdx?_succ]
    cases hf : t.findIdx? (fun m => m.priority < msg.priority) with
    | none => rfl
    | some j => rfl

/-- The insertion goes immediately before the first message with strictly
lower priority: the new message lands between the maximal prefix of
priorities `≥ p` (kept in order, so equal priorities stay FIFO) and the
rest. -/
theorem insertByPriority_split (q : List QueueMessage) (msg : QueueMessage) :
    insertByPriority q msg
      = q.takeWhile (fun m => !(m.priority < msg.priority))
          ++ msg :: q.dropWhile (fun m => !(m.priority < msg.priority)) := by
  induction q with
  | nil => rfl
  | cons a t ih =>
    rw [insertByPriority_cons]
    by_cases h : a.priority < msg.priority
    · rw [if_pos h, List.takeWhile_cons, List.dropWhile_cons]
      simp [h]
    · rw [if_neg h, List.takeWhile_cons, List.dropWhile_cons]
      simp [h, ih]

/-- In a priority-descending list, everything after the maximal prefix of
priorities `≥ p` is at most `p`. -/
theorem dropWhile_le_priority (p : Int) :
    ∀ (q : List QueueMessage), prioritySorted q →
      ∀ b ∈ q.dropWhile (fun m => !(m.priority < p)), b.priority ≤ p := by
  intro q
  induction q with
  | nil => intro _ b hb; simp at hb
  | cons a t ih =>
    intro hs b hb
    rw [List.dropWhile_cons] at hb
    rcases List.pairwise_cons.1 hs with ⟨hrel, hst⟩
    by_cases h : a.priority < p
    · simp only [h] at hb
      simp at hb
      rcases hb with hba | hbt
      · rw [hba]; omega
      · have := hrel b hbt
        omega
    · simp only [h] at hb
      simp at hb
      exact ih hst b hb

/-- Priority insertion preserves the priority-descending invariant. -/
theorem insertByPriority_sorted (q : List QueueMessage) (msg : QueueMessage)
    (hq : prioritySorted q) : prioritySorted (insertByPriority q msg) := by
  rw [insertByPriority_split]
  have hsplit := List.takeWhile_append_dropWhile
    (fun m => !(m.priority < msg.priority)) q
  have hq' : prioritySorted (q.takeWhile (fun m => !(m.priority < msg.priority))
      ++ q.dropWhile (fun m => !(m.priority < msg.priority))) := by
    rw [hsplit]; exact hq
  rw [prioritySorted, List.pairwise_append] at hq'
  obtain ⟨htake, hdrop, hcross⟩ := hq'
  rw [prioritySorted, List.pairwise_append]
  refine ⟨htake, ?_, ?_⟩
  · rw [List.pairwise_cons]
    refine ⟨?_, hdrop⟩
    intro b hb
    exact dropWhile_le_priority msg.priority q hq b hb
  · intro a ha b hb
    have hap : msg.priority ≤ a.priority := by
      have := List.mem_takeWhile_imp ha
      simp at this
      omega
    rcases List.mem_cons.1 hb with hbm | hbd
    · rw [hbm]; exact hap
    · exact hcross a ha b hbd

/-- `retryDeadLetter` either finds nothing or pushes the retried message
at the END of the pending list. -/
theorem retryDeadLetter_append (s : EventQueue) (mid : Nat) :
    (retryDeadLetter s mid).1.queue = s.queue ∨
    ∃ m1, (retryDeadLetter s mid).1.queue = s.queue ++ [m1] ∧
      m1.status = MsgStatus.pending ∧ m1.retryCount = 0 := by
  unfold retryDeadLetter
  cases h : s.deadLetter.find? (fun m => m.id = mid) with
  | none => exact Or.inl rfl
  | some m => exact Or.inr ⟨{ m with status := MsgStatus.pending, retryCount := 0 }, rfl, rfl, rfl⟩

/-- C1 (amended) — `enqueue` inserts the new message immediately before
the first existing message with strictly lower priority (the maximal
prefix with priority ≥ p is kept in order, so equal priorities stay FIFO)
and preserves the priority-descending invariant, and enqueuing priorities
[1, 5, 1] yields pending order 5, then the first 1, then the second 1;
`retryDeadLetter`, however, pushes the retried message at the END of the
pending list, which does not in general respect priority order. -/
theorem enqueue_priority_order_c1 :
    (∀ (s : EventQueue) (e : Event) (p : Int) (sch : Option Nat),
      (enqueueMsg s e p sch).1.queue
        = s.queue.takeWhile (fun m => !(m.priority < p))
            ++ (enqueueMsg s e p sch).2 :: s.queue.dropWhile (fun m => !(m.priority < p))) ∧
    (∀ (s : EventQueue) (e : Event) (p : Int) (sch : Option Nat),
      prioritySorted s.queue → prioritySorted (enqueueMsg s e p sch).1.queue) ∧
    (∀ (s : EventQueue) (mid : Nat),
      (retryDeadLetter s mid).1.queue = s.queue ∨
      ∃ m1, (retryDeadLetter s mid).1.queue = s.queue ++ [m1] ∧
        m1.status = MsgStatus.pending ∧ m1.retryCount = 0) ∧
    ((runOps (initQueue defaultOptions)
        [QOp.enqueue sampleEvent 1 none, QOp.enqueue sampleEvent2 5 none,
         QOp.enqueue sampleEvent 1 none]).queue.map (fun m => (m.id, m.priority))
      = [(1, 5), (0, 1), (2, 1)]) := by
  refine ⟨?_, ?_, retryDeadLetter_append, by decide⟩
  · intro s e p sch
    exact insertByPriority_split s.queue (enqueueMsg s e p sch).2
  · intro s e p sch hs
    exact insertByPriority_sorted s.queue (enqueueMsg s e p sch).2 hs

/-- Witness for C1 (amended): enqueueing into the sorted one-element queue
keeps the pending list sorted. -/
theorem enqueue_priority_order_c1_witness :
    prioritySorted
      (enqueueMsg (runOps (initQueue defaultOptions) [QOp.enqueue sampleEvent 1 none])
        sampleEvent2 5 none).1.queue :=
  enqueue_priority_order_c1.2.1
    (runOps (initQueue defaultOptions) [QOp.enqueue sampleEvent 1 none])
    sampleEvent2 5 none (by decide)

/-- C1 counterexample — the pending list is NOT maintained in
priority-descending order by every operation: after a priority-5 message
dead-letters and a priority-0 message is enqueued, `retryDeadLetter`
pushes the priority-5 message BEHIND the priority-0 one. -/
theorem queue_order_c1_counterexample :
    ¬ prioritySorted (runOps (initQueue defaultOptions) opsC1).queue := by decide

/-- Splitting the enqueue count over a cons. -/
theorem countEnqueues_cons (op : QOp) (ops : List QOp) :
    countEnqueues (op :: ops) = enqOpCount op + countEnqueues ops := by
  unfold countEnqueues enqOpCount
  cases op <;> simp [List.filter_cons] <;> omega

/-- One conservative operation (anything but `retryDeadLetter` and
`clear()`) preserves the conservation sum, adds one for an enqueue, keeps
the pending list all-pending and leaves the in-flight set alone. -/
theorem conservation_step (s : EventQueue) (op : QOp) (hop : conservativeOp op = true)
    (hpend : ∀ m ∈ s.queue, m.status = MsgStatus.pending) :
    (∀ m ∈ (applyOp s op).queue, m.status = MsgStatus.pending) ∧
    (applyOp s op).processing = s.processing ∧
    (applyOp s op).queue.length + (applyOp s op).completedCount + (applyOp s op).failedCount
      = s.queue.length + s.completedCount + s.failedCount + enqOpCount op := by
  cases op with
  | enqueue e p sch =>
    refine ⟨?_, rfl, ?_⟩
    · intro m hm
      have hq : (applyOp s (QOp.enqueue e p sch)).queue
          = insertByPriority s.queue (enqueueMsg s e p sch).2 := rfl
      rw [hq, insertByPriority_split] at hm
      rcases List.mem_append.1 hm with h | h
      · exact hpend m ((List.takeWhile_sublist _).mem h)
      · rcases List.mem_cons.1 h with h | h
        · rw [h]; rfl
        · exact hpend m ((List.dropWhile_sublist _).mem h)
    · show (insertByPriority s.queue (enqueueMsg s e p sch).2).length
          + s.completedCount + s.failedCount
        = s.queue.length + s.completedCount + s.failedCount
          + enqOpCount (QOp.enqueue e p sch)
      rw [insertByPriority_split]
      have hlen := congrArg List.length
        (List.takeWhile_append_dropWhile
          (fun m => !(m.priority < (enqueueMsg s e p sch).2.priority)) s.queue)
      simp only [List.length_append, List.length_cons] at hlen ⊢
      simp only [enqOpCount]
      omega
  | attempt mid ok now =>
    rw [show applyOp s (QOp.attempt mid ok now) = (processAttempt s mid ok now).1 from rfl]
    cases hf : s.queue.find? (fun m => m.id = mid) with
    | none =>
      unfold processAttempt
      rw [hf]
      exact ⟨hpend, rfl, by simp [enqOpCount]⟩
    | some m0 =>
      have hm0 : m0 ∈ s.queue := List.mem_of_find?_eq_some hf
      have hp0 := List.find?_some hf
      have herase : (s.queue.eraseP (fun m => m.id = mid)).length + 1 = s.queue.length :=
        List.length_eraseP_add_one hm0 hp0
      have herasemem : ∀ m ∈ s.queue.eraseP (fun m => m.id = mid), m ∈ s.queue :=
        fun m hm => (List.eraseP_sublist _).mem hm
      unfold processAttempt
      rw [hf]
      dsimp only
      cases ok with
      | true =>
        rw [if_pos rfl]
        refine ⟨?_, rfl, ?_⟩
        · intro m hm
          exact hpend m (herasemem m hm)
        · show (removeFromQueue s.queue mid).length + (s.completedCount + 1) + s.failedCount
              = s.queue.length + s.completedCount + s.failedCount
                + enqOpCount (QOp.attempt mid true now)
          unfold removeFromQueue
          simp only [enqOpCount]
          omega
      | false =>
        rw [if_neg Bool.false_ne_true]
        by_cases hged : m0.maxRetries ≤ m0.retryCount + 1
        · rw [if_pos hged]
          refine ⟨?_, rfl, ?_⟩
          · intro m hm
            exact hpend m (herasemem m hm)
          · show (removeFromQueue s.queue mid).length + s.completedCount + (s.failedCount + 1)
                = s.queue.length + s.completedCount + s.failedCount
                  + enqOpCount (QOp.attempt mid false now)
            unfold removeFromQueue
            simp only [enqOpCount]
            omega
        · rw [if_neg hged]
          refine ⟨?_, rfl, ?_⟩
          · intro m hm
            have hm' : m ∈ setMsg s.queue mid
                { m0 with
                  status := MsgStatus.pending
                  retryCount := m0.retryCount + 1
                  scheduledAt := some (now + s.options.retryDelay * 2 ^ (m0.retryCount + 1)) } := hm
            unfold setMsg at hm'
            rcases List.mem_map.1 hm' with ⟨x, hx, hxm⟩
            by_cases hxid : x.id = mid
            · rw [if_pos hxid] at hxm
              rw [← hxm]
            · rw [if_neg hxid] at hxm
              rw [← hxm]
              exact hpend x hx
          · show (setMsg s.queue mid _).length + s.completedCount + s.failedCount
                = s.queue.length + s.completedCount + s.failedCount
                  + enqOpCount (QOp.attempt mid false now)
            unfold setMsg
            rw [List.length_map]
            simp only [enqOpCount]
            omega
  | retryDead mid => exact absurd hop (by simp [conservativeOp])
  | clearDead => exact ⟨hpend, rfl, rfl⟩
  | clearAll => exact absurd hop (by simp [conservativeOp])

/-- Running conservative operations preserves the conservation law. -/
theorem conservation_run (ops : List QOp) : ∀ (s : EventQueue),
    (∀ op ∈ ops, conservativeOp op = true) →
    (∀ m ∈ s.queue, m.status = MsgStatus.pending) →
    (∀ m ∈ (runOps s ops).queue, m.status = MsgStatus.pending) ∧
    (runOps s ops).processing = s.processing ∧
    (runOps s ops).queue.length + (runOps s ops).completedCount + (runOps s ops).failedCount
      = s.queue.length + s.completedCount + s.failedCount + countEnqueues ops := by
  induction ops with
  | nil =>
    intro s _ hpend
    exact ⟨hpend, rfl, rfl⟩
  | cons op ops ih =>
    intro s hops hpend
    have hstep := conservation_step s op (hops op (List.mem_cons_self _ _)) hpend
    have hrest := ih (applyOp s op) (fun o ho => hops o (List.mem_cons_of_mem _ ho)) hstep.1
    have hchain : runOps s (op :: ops) = runOps (applyOp s op) ops := rfl
    rw [hchain]
    refine ⟨hrest.1, hrest.2.1.trans hstep.2.1, ?_⟩
    rw [hrest.2.2, countEnqueues_cons]
    have := hstep.2.2
    omega

/-- C5 (amended) — at any quiescent point of a run that never called
`clear()` NOR `retryDeadLetter`, `pending + processing + completed +
failed` equals the number of messages ever enqueued.  (`retryDeadLetter`
breaks the law as literally claimed: it re-adds a message that the failed
counter already counted — see the counterexample.) -/
theorem conservation_c5 (opts : QueueOptions) (ops : List QOp)
    (hops : ∀ op ∈ ops, conservativeOp op = true) :
    (getStats (runOps (initQueue opts) ops)).pending
      + (getStats (runOps (initQueue opts) ops)).processing
      + (getStats (runOps (initQueue opts) ops)).completed
      + (getStats (runOps (initQueue opts) ops)).failed
      = countEnqueues ops := by
  obtain ⟨hpend, hproc, hsum⟩ :=
    conservation_run ops (initQueue opts) hops (by intro m hm; simp [initQueue] at hm)
  have hfilter : (runOps (initQueue opts) ops).queue.filter
      (fun m => m.status = MsgStatus.pending) = (runOps (initQueue opts) ops).queue := by
    rw [List.filter_eq_self]
    intro m hm
    simp [hpend m hm]
  show ((runOps (initQueue opts) ops).queue.filter
      (fun m => m.status = MsgStatus.pending)).length
    + (runOps (initQueue opts) ops).processing.length
    + (runOps (initQueue opts) ops).completedCount
    + (runOps (initQueue opts) ops).failedCount = countEnqueues ops
  rw [hfilter, hproc]
  simp only [initQueue] at hsum ⊢
  simp at hsum
  simp
  omega

/-- Witness for C5 (amended): a message enqueued and dead-lettered on a
fresh queue keeps the conservation sum at 1. -/
theorem conservation_c5_witness :
    (getStats (runOps (initQueue defaultOptions)
        [QOp.enqueue sampleEvent 0 none, QOp.attempt 0 false 10,
         QOp.attempt 0 false 20, QOp.attempt 0 false 30])).pending
      + (getStats (runOps (initQueue defaultOptions)
          [QOp.enqueue sampleEvent 0 none, QOp.attempt 0 false 10,
           QOp.attempt 0 false 20, QOp.attempt 0 false 30])).processing
      + (getStats (runOps (initQueue defaultOptions)
          [QOp.enqueue sampleEvent 0 none, QOp.attempt 0 false 10,
           QOp.attempt 0 false 20, QOp.attempt 0 false 30])).completed
      + (getStats (runOps (initQueue defaultOptions)
          [QOp.enqueue sampleEvent 0 none, QOp.attempt 0 false 10,
           QOp.attempt 0 false 20, QOp.attempt 0 false 30])).failed
      = countEnqueues
          [QOp.enqueue sampleEvent 0 none, QOp.attempt 0 false 10,
           QOp.attempt 0 false 20, QOp.attempt 0 false 30] :=
  conservation_c5 defaultOptions
    [QOp.enqueue sampleEvent 0 none, QOp.attempt 0 false 10,
     QOp.attempt 0 false 20, QOp.attempt 0 false 30] (by decide)

/-- C5 counterexample — with `retryDeadLetter` (and no `clear()`), the sum
`pending + processing + completed + failed` exceeds the number of messages
ever enqueued: the retried message is counted both as pending and in the
failed counter. -/
theorem conservation_c5_counterexample :
    ¬ ((getStats (runOps (initQueue defaultOptions) opsC5)).pending
        + (getStats (runOps (initQueue defaultOptions) opsC5)).processing
        + (getStats (runOps (initQueue defaultOptions) opsC5)).completed
        + (getStats (runOps (initQueue defaultOptions) opsC5)).failed
        = countEnqueues opsC5) := by decide

/-- Membership in an insertByPriority result. -/
theorem mem_insertByPriority {q : List QueueMessage} {msg x : QueueMessage}
    (hx : x ∈ insertByPriority q msg) : x = msg ∨ x ∈ q := by
  rw [insertByPriority_split] at hx
  rcases List.mem_append.1 hx with h | h
  · exact Or.inr ((List.takeWhile_sublist _).mem h)
  · rcases List.mem_cons.1 h with h | h
    · exact Or.inl h
    · exact Or.inr ((List.dropWhile_sublist _).mem h)

/-- Membership in a setMsg result. -/
theorem mem_setMsg {q : List QueueMessage} {mid : Nat} {m' x : QueueMessage}
    (hx : x ∈ setMsg q mid m') : x = m' ∨ (x ∈ q ∧ x.id ≠ mid) := by
  unfold setMsg at hx
  rcases List.mem_map.1 hx with ⟨y, hy, hyx⟩
  by_cases hid : y.id = mid
  · rw [if_pos hid] at hyx
    exact Or.inl hyx.symm
  · rw [if_neg hid] at hyx
    rw [← hyx]
    exact Or.inr ⟨hy, hid⟩

/-- Every queue operation preserves the per-message status / retry-count
invariant. -/
theorem inv_applyOp (s : EventQueue) (op : QOp) (hinv : Inv s) : Inv (applyOp s op) := by
  obtain ⟨hq, hd, hopt⟩ := hinv
  cases op with
  | enqueue e p sch =>
    refine ⟨?_, hd, hopt⟩
    intro m hm
    rcases mem_insertByPriority hm with h | h
    · rw [h]
      exact ⟨rfl, hopt, hopt⟩
    · exact hq m h
  | attempt mid ok now =>
    rw [show applyOp s (QOp.attempt mid ok now) = (processAttempt s mid ok now).1 from rfl]
    cases hf : s.queue.find? (fun m => m.id = mid) with
    | none =>
      unfold processAttempt
      rw [hf]
      exact ⟨hq, hd, hopt⟩
    | some m0 =>
      have hm0 : m0 ∈ s.queue := List.mem_of_find?_eq_some hf
      obtain ⟨_, hm0rc, hm0mr⟩ := hq m0 hm0
      unfold processAttempt
      rw [hf]
      dsimp only
      cases ok with
      | true =>
        rw [if_pos rfl]
        exact ⟨fun m hm => hq m ((List.eraseP_sublist _).mem hm), hd, hopt⟩
      | false =>
        rw [if_neg Bool.false_ne_true]
        by_cases hged : m0.maxRetries ≤ m0.retryCount + 1
        · rw [if_pos hged]
          refine ⟨fun m hm => hq m ((List.eraseP_sublist _).mem hm), ?_, hopt⟩
          intro m hm
          rcases List.mem_append.1 hm with h | h
          · exact hd m h
          · rcases List.mem_cons.1 h with h | h
            · rw [h]
              exact ⟨rfl, by show m0.retryCount + 1 = m0.maxRetries; omega,
                by show 1 ≤ m0.maxRetries; omega⟩
            · simp at h
        · rw [if_neg hged]
          refine ⟨?_, hd, hopt⟩
          intro m hm
          rcases mem_setMsg hm with h | h
          · rw [h]
            exact ⟨rfl, by show m0.retryCount + 1 < m0.maxRetries; omega,
              by show 1 ≤ m0.maxRetries; omega⟩
          · exact hq m h.1
  | retryDead mid =>
    rw [show applyOp s (QOp.retryDead mid) = (retryDeadLetter s mid).1 from rfl]
    unfold retryDeadLetter
    cases hf : s.deadLetter.find? (fun m => m.id = mid) with
    | none => exact ⟨hq, hd, hopt⟩
    | some m =>
      have hmd : m ∈ s.deadLetter := List.mem_of_find?_eq_some hf
      obtain ⟨_, hmrc, hmmr⟩ := hd m hmd
      refine ⟨?_, ?_, hopt⟩
      · intro x hx
        rcases List.mem_append.1 hx with h | h
        · exact hq x h
        · rcases List.mem_cons.1 h with h | h
          · rw [h]
            exact ⟨rfl, by show 0 < m.maxRetries; omega, by show 1 ≤ m.maxRetries; omega⟩
          · simp at h
      · intro x hx
        exact hd x ((List.eraseP_sublist _).mem hx)
  | clearDead =>
    refine ⟨hq, ?_, hopt⟩
    intro m hm
    simp [applyOp, clearDeadLetter] at hm
  | clearAll =>
    refine ⟨?_, hd, hopt⟩
    intro m hm
    simp [applyOp, clearQueue] at hm

/-- Priority insertion is a permutation of consing. -/
theorem insertByPriority_perm (q : List QueueMessage) (msg : QueueMessage) :
    (insertByPriority q msg).Perm (msg :: q) := by
  rw [insertByPriority_split]
  have h := @List.perm_middle QueueMessage msg
    (q.takeWhile (fun m => !(m.priority < msg.priority)))
    (q.dropWhile (fun m => !(m.priority < msg.priority)))
  rw [List.takeWhile_append_dropWhile] at h
  exact h

/-- In-place replacement preserves the id sequence when the replacement
keeps the id. -/
theorem setMsg_map_id (q : List QueueMessage) (mid : Nat) (m' : QueueMessage)
    (hid : m'.id = mid) :
    (setMsg q mid m').map (fun m => m.id) = q.map (fun m => m.id) := by
  unfold setMsg
  rw [List.map_map]
  refine List.map_congr_left ?_
  intro x hx
  by_cases h : x.id = mid
  · simp [Function.comp, h, hid]
  · simp [Function.comp, h]

/-- Every queue operation preserves distinctness of owned ids and the
fresh-id bound. -/
theorem idwf_applyOp (s : EventQueue) (op : QOp) (hwf : IdWF s) : IdWF (applyOp s op) := by
  obtain ⟨hnd, hbd⟩ := hwf
  cases op with
  | enqueue e p sch =>
    have hperm : (idsOf (applyOp s (QOp.enqueue e p sch))).Perm (s.nextId :: idsOf s) := by
      have h1 : (insertByPriority s.queue (enqueueMsg s e p sch).2 ++ s.deadLetter).Perm
          ((enqueueMsg s e p sch).2 :: (s.queue ++ s.deadLetter)) := by
        have h := (insertByPriority_perm s.queue (enqueueMsg s e p sch).2).append_right
          s.deadLetter
        exact h
      have h2 := h1.map (fun m => m.id)
      exact h2
    refine ⟨?_, ?_⟩
    · rw [hperm.nodup_iff, List.nodup_cons]
      exact ⟨fun hmem => absurd (hbd _ hmem) (lt_irrefl _), hnd⟩
    · intro i hi
      have hmem := hperm.mem_iff.1 hi
      show i < s.nextId + 1
      rcases List.mem_cons.1 hmem with h | h
      · omega
      · have := hbd i h
        omega
  | attempt mid ok now =>
    rw [show applyOp s (QOp.attempt mid ok now) = (processAttempt s mid ok now).1 from rfl]
    cases hf : s.queue.find? (fun m => m.id = mid) with
    | none =>
      unfold processAttempt
      rw [hf]
      exact ⟨hnd, hbd⟩
    | some m0 =>
      have hm0 : m0 ∈ s.queue := List.mem_of_find?_eq_some hf
      have hm0id : m0.id = mid := by simpa using List.find?_some hf
      have hsub : ((s.queue.eraseP (fun m => m.id = mid) ++ s.deadLetter).map
          (fun m => m.id)).Sublist (idsOf s) := by
        unfold idsOf
        exact List.Sublist.map _ ((List.eraseP_sublist _).append_right _)
      unfold processAttempt
      rw [hf]
      dsimp only
      cases ok with
      | true =>
        rw [if_pos rfl]
        exact ⟨hnd.sublist hsub, fun i hi => hbd i (hsub.mem hi)⟩
      | false =>
        rw [if_neg Bool.false_ne_true]
        by_cases hged : m0.maxRetries ≤ m0.retryCount + 1
        · rw [if_pos hged]
          obtain ⟨a, l₁, l₂, hl₁, hpa, hdecomp, herase⟩ :=
            @List.exists_of_eraseP QueueMessage (fun m => decide (m.id = mid)) s.queue m0
              hm0 (by simp [hm0id])
          have haid : a.id = mid := of_decide_eq_true hpa
          have hperm : (((s.queue.eraseP (fun m => m.id = mid))
                ++ (s.deadLetter ++ [({ m0 with
                    status := MsgStatus.dead_letter,
                    retryCount := m0.retryCount + 1 } : QueueMessage)])).map
                  (fun m => m.id)).Perm
              (idsOf s) := by
            rw [List.perm_iff_count]
            intro n
            rw [herase]
            unfold idsOf
            rw [hdecomp]
            simp [List.count_append, List.count_cons, haid, hm0id]
            by_cases hn : mid = n <;> simp [hn] <;> omega
          exact ⟨hperm.nodup_iff.mpr hnd, fun i hi => hbd i (hperm.mem_iff.1 hi)⟩
        · rw [if_neg hged]
          have hids : ((setMsg s.queue mid ({ m0 with
                status := MsgStatus.pending,
                retryCount := m0.retryCount + 1,
                scheduledAt := some (now + s.options.retryDelay * 2 ^ (m0.retryCount + 1)) }
                : QueueMessage)
              ++ s.deadLetter).map (fun m => m.id)) = idsOf s := by
            have hm3id : ({ m0 with
                status := MsgStatus.pending,
                retryCount := m0.retryCount + 1,
                scheduledAt := some (now + s.options.retryDelay * 2 ^ (m0.retryCount + 1)) }
                : QueueMessage).id = mid := hm0id
            unfold idsOf
            rw [List.map_append, List.map_append, setMsg_map_id _ _ _ hm3id]
          exact ⟨(List.Perm.of_eq hids).nodup_iff.mpr hnd,
            fun i hi => hbd i ((List.Perm.of_eq hids).mem_iff.1 hi)⟩
  | retryDead mid =>
    rw [show applyOp s (QOp.retryDead mid) = (retryDeadLetter s mid).1 from rfl]
    unfold retryDeadLetter
    cases hf : s.deadLetter.find? (fun m => m.id = mid) with
    | none => exact ⟨hnd, hbd⟩
    | some m =>
      have hmd : m ∈ s.deadLetter := List.mem_of_find?_eq_some hf
      have hmid : m.id = mid := by simpa using List.find?_some hf
      obtain ⟨a, d₁, d₂, hd₁, hpa, hdecomp, herase⟩ :=
        @List.exists_of_eraseP QueueMessage (fun x => decide (x.id = mid)) s.deadLetter m
          hmd (by simp [hmid])
      have haid : a.id = mid := of_decide_eq_true hpa
      have hperm : (((s.queue
              ++ [({ m with status := MsgStatus.pending, retryCount := 0 } : QueueMessage)])
            ++ s.deadLetter.eraseP (fun x => x.id = mid)).map (fun x => x.id)).Perm
          (idsOf s) := by
        rw [List.perm_iff_count]
        intro n
        rw [herase]
        unfold idsOf
        rw [hdecomp]
        simp [List.count_append, List.count_cons, haid, hmid]
        by_cases hn : mid = n <;> simp [hn] <;> omega
      exact ⟨hperm.nodup_iff.mpr hnd, fun i hi => hbd i (hperm.mem_iff.1 hi)⟩
  | clearDead =>
    have hsub : (idsOf (applyOp s QOp.clearDead)).Sublist (idsOf s) := by
      unfold idsOf
      show ((s.queue ++ []).map (fun (m : QueueMessage) => m.id)).Sublist _
      rw [List.append_nil]
      exact List.Sublist.map _ (List.sublist_append_left _ _)
    exact ⟨hnd.sublist hsub, fun i hi => hbd i (hsub.mem hi)⟩
  | clearAll =>
    have hsub : (idsOf (applyOp s QOp.clearAll)).Sublist (idsOf s) := by
      unfold idsOf
      show (([] ++ s.deadLetter).map (fun (m : QueueMessage) => m.id)).Sublist _
      rw [List.nil_append]
      exact List.Sublist.map _ (List.sublist_append_right _ _)
    exact ⟨hnd.sublist hsub, fun i hi => hbd i (hsub.mem hi)⟩

/-- In a message list with pairwise-distinct ids, two members sharing an
id are the same message. -/
theorem qmsg_eq_of_id_eq {l : List QueueMessage} (h : (l.map (fun m => m.id)).Nodup)
    {x y : QueueMessage} (hx : x ∈ l) (hy : y ∈ l) (hid : x.id = y.id) : x = y := by
  induction l with
  | nil => cases hx
  | cons a t ih =>
    rw [List.map_cons, List.nodup_cons] at h
    rcases List.mem_cons.1 hx with hxa | hxt <;> rcases List.mem_cons.1 hy with hya | hyt
    · rw [hxa, hya]
    · exfalso
      apply h.1
      rw [← hxa, hid]
      exact List.mem_map.2 ⟨y, hyt, rfl⟩
    · exfalso
      apply h.1
      rw [← hya, ← hid]
      exact List.mem_map.2 ⟨x, hxt, rfl⟩
    · exact ih h.2 hxt hyt

/-- Both invariants hold in every reachable queue state (for a queue whose
resolved `maxRetries` is at least 1, which the constructor guarantees). -/
theorem wf_runOps (opts : QueueOptions) (h1 : 1 ≤ opts.maxRetries) (ops : List QOp) :
    Inv (runOps (initQueue opts) ops) ∧ IdWF (runOps (initQueue opts) ops) := by
  have haux : ∀ (l : List QOp) (s : EventQueue), Inv s → IdWF s →
      Inv (runOps s l) ∧ IdWF (runOps s l) := by
    intro l
    induction l with
    | nil => intro s hinv hwf; exact ⟨hinv, hwf⟩
    | cons op l ih =>
      intro s hinv hwf
      exact ih (applyOp s op) (inv_applyOp s op hinv) (idwf_applyOp s op hwf)
  refine haux ops (initQueue opts) ⟨?_, ?_, h1⟩ ⟨?_, ?_⟩
  · intro m hm
    simp [initQueue] at hm
  · intro m hm
    simp [initQueue] at hm
  · show (([] : List QueueMessage).map (fun m => m.id)).Nodup
    simp
  · intro i hi
    simp [idsOf, initQueue] at hi

/-- A single attempt never decreases any pending message's retryCount
(given distinct pending ids, true of every reachable state). -/
theorem attempt_monotone (s : EventQueue)
    (hnd : (s.queue.map (fun m => m.id)).Nodup)
    (mid : Nat) (ok : Bool) (now : Nat) (m m' : QueueMessage)
    (hm : m ∈ s.queue) (hm' : m' ∈ (processAttempt s mid ok now).1.queue)
    (hid : m'.id = m.id) : m.retryCount ≤ m'.retryCount := by
  cases hf : s.queue.find? (fun x => x.id = mid) with
  | none =>
    have hsame : (processAttempt s mid ok now).1 = s := by
      unfold processAttempt
      rw [hf]
    rw [hsame] at hm'
    rw [qmsg_eq_of_id_eq hnd hm' hm hid]
  | some m0 =>
    have hm0 : m0 ∈ s.queue := List.mem_of_find?_eq_some hf
    have hm0id : m0.id = mid := by simpa using List.find?_some hf
    unfold processAttempt at hm'
    rw [hf] at hm'
    dsimp only at hm'
    cases ok with
    | true =>
      rw [if_pos rfl] at hm'
      have hmem : m' ∈ s.queue := (List.eraseP_sublist _).mem hm'
      rw [qmsg_eq_of_id_eq hnd hmem hm hid]
    | false =>
      rw [if_neg Bool.false_ne_true] at hm'
      by_cases hged : m0.maxRetries ≤ m0.retryCount + 1
      · rw [if_pos hged] at hm'
        have hmem : m' ∈ s.queue := (List.eraseP_sublist _).mem hm'
        rw [qmsg_eq_of_id_eq hnd hmem hm hid]
      · rw [if_neg hged] at hm'
        rcases mem_setMsg hm' with h | h
        · have hm0eq : m = m0 := by
            refine qmsg_eq_of_id_eq hnd hm hm0 ?_
            rw [← hid, h]
          rw [hm0eq]
          have hrc : m'.retryCount = m0.retryCount + 1 := by rw [h]
          omega
        · rw [qmsg_eq_of_id_eq hnd h.1 hm hid]

/-- `retryDeadLetter` only ever re-adds a message with retryCount reset to
0 and status pending; every other pending message is left alone. -/
theorem retryDeadLetter_resets (s : EventQueue) (mid : Nat) (m' : QueueMessage)
    (hm' : m' ∈ (retryDeadLetter s mid).1.queue) :
    m' ∈ s.queue ∨ (m'.retryCount = 0 ∧ m'.status = MsgStatus.pending) := by
  unfold retryDeadLetter at hm'
  cases hf : s.deadLetter.find? (fun x => x.id = mid) with
  | none =>
    rw [hf] at hm'
    exact Or.inl hm'
  | some m =>
    rw [hf] at hm'
    dsimp only at hm'
    rcases List.mem_append.1 hm' with h | h
    · exact Or.inl h
    · rcases List.mem_cons.1 h with h | h
      · rw [h]
        exact Or.inr ⟨rfl, rfl⟩
      · simp at h

/-- C6 — in every reachable queue state: pending messages always have
`retryCount < maxRetries`, dead-letter messages have
`retryCount = maxRetries` exactly (the bound is reached only at the
transition to dead_letter); one further attempt never decreases any
pending message's retryCount; and `retryDeadLetter` re-activates a message
only with retryCount reset to 0 and status pending. -/
theorem retryCount_bounds_c6 (opts : QueueOptions) (h1 : 1 ≤ opts.maxRetries)
    (ops : List QOp) :
    (∀ m ∈ (runOps (initQueue opts) ops).queue,
      m.status = MsgStatus.pending ∧ m.retryCount < m.maxRetries) ∧
    (∀ m ∈ (runOps (initQueue opts) ops).deadLetter,
      m.status = MsgStatus.dead_letter ∧ m.retryCount = m.maxRetries) ∧
    (∀ (mid : Nat) (ok : Bool) (now : Nat) (m m' : QueueMessage),
      m ∈ (runOps (initQueue opts) ops).queue →
      m' ∈ (processAttempt (runOps (initQueue opts) ops) mid ok now).1.queue →
      m'.id = m.id → m.retryCount ≤ m'.retryCount) ∧
    (∀ (mid : Nat) (m' : QueueMessage),
      m' ∈ (retryDeadLetter (runOps (initQueue opts) ops) mid).1.queue →
      m' ∈ (runOps (initQueue opts) ops).queue ∨
        (m'.retryCount = 0 ∧ m'.status = MsgStatus.pending)) := by
  obtain ⟨⟨hq, hd, _⟩, hnd, _⟩ := wf_runOps opts h1 ops
  have hqnd : ((runOps (initQueue opts) ops).queue.map (fun m => m.id)).Nodup := by
    have hids : idsOf (runOps (initQueue opts) ops)
        = (runOps (initQueue opts) ops).queue.map (fun m => m.id)
          ++ (runOps (initQueue opts) ops).deadLetter.map (fun m => m.id) := by
      unfold idsOf
      rw [List.map_append]
    rw [hids] at hnd
    exact hnd.of_append_left
  refine ⟨?_, ?_, ?_, ?_⟩
  · intro m hm
    obtain ⟨h1', h2', _⟩ := hq m hm
    exact ⟨h1', h2'⟩
  · intro m hm
    obtain ⟨h1', h2', _⟩ := hd m hm
    exact ⟨h1', h2'⟩
  · intro mid ok now m m' hm hm' hid
    exact attempt_monotone (runOps (initQueue opts) ops) hqnd mid ok now m m' hm hm' hid
  · intro mid m' hm'
    exact retryDeadLetter_resets (runOps (initQueue opts) ops) mid m' hm'

/-- Witness for C6 on a default queue after one enqueue. -/
theorem retryCount_bounds_c6_witness :
    (∀ m ∈ (runOps (initQueue defaultOptions) [QOp.enqueue sampleEvent 0 none]).queue,
      m.status = MsgStatus.pending ∧ m.retryCount < m.maxRetries) ∧
    (∀ m ∈ (runOps (initQueue defaultOptions) [QOp.enqueue sampleEvent 0 none]).deadLetter,
      m.status = MsgStatus.dead_letter ∧ m.retryCount = m.maxRetries) ∧
    (∀ (mid : Nat) (ok : Bool) (now : Nat) (m m' : QueueMessage),
      m ∈ (runOps (initQueue defaultOptions) [QOp.enqueue sampleEvent 0 none]).queue →
      m' ∈ (processAttempt (runOps (initQueue defaultOptions)
              [QOp.enqueue sampleEvent 0 none]) mid ok now).1.queue →
      m'.id = m.id → m.retryCount ≤ m'.retryCount) ∧
    (∀ (mid : Nat) (m' : QueueMessage),
      m' ∈ (retryDeadLetter (runOps (initQueue defaultOptions)
              [QOp.enqueue sampleEvent 0 none]) mid).1.queue →
      m' ∈ (runOps (initQueue defaultOptions) [QOp.enqueue sampleEvent 0 none]).queue ∨
        (m'.retryCount = 0 ∧ m'.status = MsgStatus.pending)) :=
  retryCount_bounds_c6 defaultOptions (by decide) [QOp.enqueue sampleEvent 0 none]

end Qinfinity
